import Mathlib

/-!
Shallow embedding of the cryptocurrency transaction-signing core of the repository
(elliptic-curve keys and ECDSA over secp256k1, hashing and encoding utilities,
pay-to-public-key-hash scripts, transaction serialization and the legacy
signature-hash algorithm), together with the earnings-log formatter.

The bitcoin core modules (crypto, script, txn, utils) are exercised by
`two1/bitcoin/tests/test_signing.py` but their sources are not part of the
source tree given here, so every definition of that core is modelled from the
specification; each such definition's doc comment records this.  The
earnings-log formatter is modelled directly from `two1/commands/log.py`.

Bytes are modelled as `List Nat` (each element a value below 256), and machine
integers as `Nat` with explicit reductions.
-/

/-- Forces a natural number to literal form before passing it to a
continuation.  Purely an evaluation-order device: `forceN n k = k n`. -/
def forceN {α : Type} (n : Nat) (k : Nat → α) : α :=
  match n with
  | 0 => k 0
  | m+1 => k (m+1)

theorem forceN_eq {α : Type} (n : Nat) (k : Nat → α) : forceN n k = k n := by
  cases n <;> rfl

/-- Iterates a function `n` times, by direct recursion on `Nat`. -/
def natIter {α : Type} (f : α → α) (n : Nat) (x : α) : α :=
  Nat.rec x (fun _ acc => f acc) n

theorem natIter_zero {α : Type} (f : α → α) (x : α) : natIter f 0 x = x := rfl

theorem natIter_succ {α : Type} (f : α → α) (n : Nat) (x : α) :
    natIter f (n + 1) x = f (natIter f n x) := rfl

/-- 2^32, the modulus for 32-bit words. -/
def M32 : Nat := 4294967296

/-- Modelled from the spec: modular exponentiation by binary
square-and-multiply, used for the constant-time modular inversion of the
big-integer arithmetic (§9) via Fermat's little theorem.  `f` is recursion
fuel; `e < 2^f` is required for correctness. -/
def powModAux : Nat → Nat → Nat → Nat → Nat
  | 0, _, _, m => 1 % m
  | f+1, a, e, m =>
    if e = 0 then 1 % m
    else
      let h := powModAux f (a * a % m) (e / 2) m
      if e % 2 = 1 then h * a % m else h

/-- Modular exponentiation `a ^ e % m` for exponents below `2 ^ 256`. -/
def powMod (a e m : Nat) : Nat := powModAux 256 (a % m) e m

/-! ### SHA-256

Modelled from the spec (§4.1): the cryptographic digest underlying the
double-hash and short-hash primitives. -/

/-- The SHA-256 round constants. -/
def shaK : List Nat :=
  [1116352408, 1899447441, 3049323471, 3921009573, 961987163, 1508970993, 2453635748, 2870763221,
   3624381080, 310598401, 607225278, 1426881987, 1925078388, 2162078206, 2614888103, 3248222580,
   3835390401, 4022224774, 264347078, 604807628, 770255983, 1249150122, 1555081692, 1996064986,
   2554220882, 2821834349, 2952996808, 3210313671, 3336571891, 3584528711, 113926993, 338241895,
   666307205, 773529912, 1294757372, 1396182291, 1695183700, 1986661051, 2177026350, 2456956037,
   2730485921, 2820302411, 3259730800, 3345764771, 3516065817, 3600352804, 4094571909, 275423344,
   430227734, 506948616, 659060556, 883997877, 958139571, 1322822218, 1537002063, 1747873779,
   1955562222, 2024104815, 2227730452, 2361852424, 2428436474, 2756734187, 3204031479, 3329325298]

/-- One step converting four big-endian bytes into a 32-bit word. -/
def w32Step (s : List Nat × List Nat) : List Nat × List Nat :=
  match s with
  | (b0 :: b1 :: b2 :: b3 :: rest, acc) =>
    forceN (((b0 * 256 + b1) * 256 + b2) * 256 + b3) (fun w => (rest, w :: acc))
  | (l, acc) => (l, acc)

/-- Parses a 64-byte block into sixteen big-endian 32-bit words. -/
def bytesToW32 (bs : List Nat) : List Nat :=
  (natIter w32Step 16 (bs, [])).2.reverse

def smallSigma0 (x : Nat) : Nat :=
  Nat.xor (Nat.xor (x / 128 + x % 128 * 33554432) (x / 262144 + x % 262144 * 16384)) (x / 8)

def smallSigma1 (x : Nat) : Nat :=
  Nat.xor (Nat.xor (x / 131072 + x % 131072 * 32768) (x / 524288 + x % 524288 * 8192)) (x / 1024)

def bigSigma0 (x : Nat) : Nat :=
  Nat.xor (Nat.xor (x / 4 + x % 4 * 1073741824) (x / 8192 + x % 8192 * 524288))
    (x / 4194304 + x % 4194304 * 1024)

def bigSigma1 (x : Nat) : Nat :=
  Nat.xor (Nat.xor (x / 64 + x % 64 * 67108864) (x / 2048 + x % 2048 * 2097152))
    (x / 33554432 + x % 33554432 * 128)

def chF (x y z : Nat) : Nat := Nat.xor (Nat.land x y) (Nat.land (Nat.xor x 4294967295) z)

def majF (x y z : Nat) : Nat := Nat.xor (Nat.xor (Nat.land x y) (Nat.land x z)) (Nat.land y z)

/-- One step of the SHA-256 message-schedule extension, over the reversed
word accumulator. -/
def schedStep (acc : List Nat) : List Nat :=
  forceN ((smallSigma1 (acc.getD 1 0) + acc.getD 6 0 + smallSigma0 (acc.getD 14 0) +
           acc.getD 15 0) % M32) (fun w => w :: acc)

/-- Extends sixteen words to the full 64-word SHA-256 message schedule. -/
def shaSched (ws : List Nat) : List Nat := (natIter schedStep 48 ws.reverse).reverse

structure ShaSt where
  a : Nat
  b : Nat
  c : Nat
  d : Nat
  e : Nat
  f : Nat
  g : Nat
  h : Nat
deriving DecidableEq

def shaIV : ShaSt := ⟨0x6a09e667, 0xbb67ae85, 0x3c6ef372, 0xa54ff53a,
                      0x510e527f, 0x9b05688c, 0x1f83d9ab, 0x5be0cd19⟩

/-- One SHA-256 compression round, consuming the heads of the constant and
schedule lists. -/
def roundStep (s : List Nat × List Nat × ShaSt) : List Nat × List Nat × ShaSt :=
  match s with
  | (k :: ks, w :: ws, st) =>
    let t1 := (st.h + bigSigma1 st.e + chF st.e st.f st.g + k + w) % M32
    forceN ((t1 + (bigSigma0 st.a + majF st.a st.b st.c)) % M32) fun a2 =>
    forceN ((st.d + t1) % M32) fun e2 =>
    (ks, ws, ⟨a2, st.a, st.b, st.c, e2, st.e, st.f, st.g⟩)
  | s => s

/-- The SHA-256 compression function on one 64-byte block. -/
def shaCompress (st : ShaSt) (block : List Nat) : ShaSt :=
  let ws := shaSched (bytesToW32 block)
  let fin := (natIter roundStep 64 (shaK, ws, st)).2.2
  forceN ((st.a + fin.a) % M32) fun a => forceN ((st.b + fin.b) % M32) fun b =>
  forceN ((st.c + fin.c) % M32) fun c => forceN ((st.d + fin.d) % M32) fun d =>
  forceN ((st.e + fin.e) % M32) fun e => forceN ((st.f + fin.f) % M32) fun f =>
  forceN ((st.g + fin.g) % M32) fun g => forceN ((st.h + fin.h) % M32) fun h =>
  ⟨a, b, c, d, e, f, g, h⟩

def blockStep (s : List Nat × ShaSt) : List Nat × ShaSt :=
  (s.1.drop 64, shaCompress s.2 (s.1.take 64))

def w64beBytes (x : Nat) : List Nat :=
  [x / 2 ^ 56 % 256, x / 2 ^ 48 % 256, x / 2 ^ 40 % 256, x / 2 ^ 32 % 256,
   x / 2 ^ 24 % 256, x / 2 ^ 16 % 256, x / 2 ^ 8 % 256, x % 256]

def w32beBytes (x : Nat) : List Nat :=
  [x / 16777216 % 256, x / 65536 % 256, x / 256 % 256, x % 256]

/-- SHA-256 padding: a 0x80 byte, zeros, and the 64-bit big-endian bit length. -/
def shaPad (msg : List Nat) : List Nat :=
  msg ++ 128 :: List.replicate ((64 - (msg.length + 9) % 64) % 64) 0 ++ w64beBytes (8 * msg.length)

/-- SHA-256 of a byte sequence. -/
def sha256 (msg : List Nat) : List Nat :=
  let padded := shaPad msg
  let st := (natIter blockStep (padded.length / 64) (padded, shaIV)).2
  w32beBytes st.a ++ w32beBytes st.b ++ w32beBytes st.c ++ w32beBytes st.d ++
  w32beBytes st.e ++ w32beBytes st.f ++ w32beBytes st.g ++ w32beBytes st.h

/-- Modelled from the spec (§4.1): the double-hash primitive applies the
digest twice. -/
def dhash (b : List Nat) : List Nat := sha256 (sha256 b)

/-! ### RIPEMD-160

Modelled from the spec (§4.1, §4.2): the second, shorter digest of the
short-hash (hash160) primitive used for address derivation. -/

def ripemdRL : List Nat :=
  [0, 1, 2, 3, 4, 5, 6, 7, 8, 9, 10, 11, 12, 13, 14, 15, 7, 4, 13, 1, 10, 6, 15, 3, 12, 0, 9, 5, 
   2, 14, 11, 8, 3, 10, 14, 4, 9, 15, 8, 1, 2, 7, 0, 6, 13, 11, 5, 12, 1, 9, 11, 10, 0, 8, 12, 4, 
   13, 3, 7, 15, 14, 5, 6, 2, 4, 0, 5, 9, 7, 12, 2, 10, 14, 1, 3, 8, 11, 6, 15, 13]

def ripemdRR : List Nat :=
  [5, 14, 7, 0, 9, 2, 11, 4, 13, 6, 15, 8, 1, 10, 3, 12, 6, 11, 3, 7, 0, 13, 5, 10, 14, 15, 8, 
   12, 4, 9, 1, 2, 15, 5, 1, 3, 7, 14, 6, 9, 11, 8, 12, 2, 10, 0, 4, 13, 8, 6, 4, 1, 3, 11, 15, 
   0, 5, 12, 2, 13, 9, 7, 10, 14, 12, 15, 10, 4, 1, 5, 8, 7, 6, 2, 13, 14, 0, 3, 9, 11]

def ripemdSL : List Nat :=
  [11, 14, 15, 12, 5, 8, 7, 9, 11, 13, 14, 15, 6, 7, 9, 8, 7, 6, 8, 13, 11, 9, 7, 15, 7, 12, 15, 
   9, 11, 7, 13, 12, 11, 13, 6, 7, 14, 9, 13, 15, 14, 8, 13, 6, 5, 12, 7, 5, 11, 12, 14, 15, 14, 
   15, 9, 8, 9, 14, 5, 6, 8, 6, 5, 12, 9, 15, 5, 11, 6, 8, 13, 12, 5, 12, 13, 14, 11, 8, 5, 6]

def ripemdSR : List Nat :=
  [8, 9, 9, 11, 13, 15, 15, 5, 7, 7, 8, 11, 14, 14, 12, 6, 9, 13, 15, 7, 12, 8, 9, 11, 7, 7, 12, 
   7, 6, 15, 13, 11, 9, 7, 15, 11, 8, 6, 6, 14, 12, 13, 5, 14, 13, 13, 7, 5, 15, 5, 8, 11, 14, 
   14, 6, 14, 6, 9, 12, 9, 12, 5, 15, 8, 8, 5, 12, 9, 12, 5, 14, 6, 8, 13, 6, 5, 15, 13, 11, 11]

def ripemdKL : List Nat :=
  [0, 0, 0, 0, 0, 0, 0, 0, 0, 0, 0, 0, 0, 0, 0, 0, 1518500249, 1518500249, 1518500249, 
   1518500249, 1518500249, 1518500249, 1518500249, 1518500249, 1518500249, 1518500249, 
   1518500249, 1518500249, 1518500249, 1518500249, 1518500249, 1518500249, 1859775393, 
   1859775393, 1859775393, 1859775393, 1859775393, 1859775393, 1859775393, 1859775393, 
   1859775393, 1859775393, 1859775393, 1859775393, 1859775393, 1859775393, 1859775393, 
   1859775393, 2400959708, 2400959708, 2400959708, 2400959708, 2400959708, 2400959708, 
   2400959708, 2400959708, 2400959708, 2400959708, 2400959708, 2400959708, 2400959708, 
   2400959708, 2400959708, 2400959708, 2840853838, 2840853838, 2840853838, 2840853838, 
   2840853838, 2840853838, 2840853838, 2840853838, 2840853838, 2840853838, 2840853838, 
   2840853838, 2840853838, 2840853838, 2840853838, 2840853838]

def ripemdKR : List Nat :=
  [1352829926, 1352829926, 1352829926, 1352829926, 1352829926, 1352829926, 1352829926, 
   1352829926, 1352829926, 1352829926, 1352829926, 1352829926, 1352829926, 1352829926, 
   1352829926, 1352829926, 1548603684, 1548603684, 1548603684, 1548603684, 1548603684, 
   1548603684, 1548603684, 1548603684, 1548603684, 1548603684, 1548603684, 1548603684, 
   1548603684, 1548603684, 1548603684, 1548603684, 1836072691, 1836072691, 1836072691, 
   1836072691, 1836072691, 1836072691, 1836072691, 1836072691, 1836072691, 1836072691, 
   1836072691, 1836072691, 1836072691, 1836072691, 1836072691, 1836072691, 2053994217, 
   2053994217, 2053994217, 2053994217, 2053994217, 2053994217, 2053994217, 2053994217, 
   2053994217, 2053994217, 2053994217, 2053994217, 2053994217, 2053994217, 2053994217, 
   2053994217, 0, 0, 0, 0, 0, 0, 0, 0, 0, 0, 0, 0, 0, 0, 0, 0]


/-- Rotate a 32-bit word left by `s` bits. -/
def rotl32 (s x : Nat) : Nat := x % 2 ^ (32 - s) * 2 ^ s + x / 2 ^ (32 - s)

/-- The RIPEMD-160 round function, selected by the round index `j`. -/
def ripemdF (j x y z : Nat) : Nat :=
  if j < 16 then Nat.xor (Nat.xor x y) z
  else if j < 32 then Nat.lor (Nat.land x y) (Nat.land (Nat.xor x 4294967295) z)
  else if j < 48 then Nat.xor (Nat.lor x (Nat.xor y 4294967295)) z
  else if j < 64 then Nat.lor (Nat.land x z) (Nat.land y (Nat.xor z 4294967295))
  else Nat.xor x (Nat.lor y (Nat.xor z 4294967295))

/-- One step of one RIPEMD-160 line.  The state carries the round index, the
remaining portions of the index, shift and constant tables, the sixteen
message words, and the five chaining values. -/
structure RipSt where
  j : Nat
  rj : List Nat
  sj : List Nat
  kj : List Nat
  x : List Nat
  a : Nat
  b : Nat
  c : Nat
  d : Nat
  e : Nat

def ripStepLeft (st : RipSt) : RipSt :=
  match st.rj, st.sj, st.kj with
  | r :: rs, s :: ss, k :: ks =>
    forceN ((rotl32 s ((st.a + ripemdF st.j st.b st.c st.d + st.x.getD r 0 + k) % M32) + st.e)
        % M32) fun t =>
    ⟨st.j + 1, rs, ss, ks, st.x, st.e, t, st.b, rotl32 10 st.c, st.d⟩
  | _, _, _ => st

def ripStepRight (st : RipSt) : RipSt :=
  match st.rj, st.sj, st.kj with
  | r :: rs, s :: ss, k :: ks =>
    forceN ((rotl32 s ((st.a + ripemdF (79 - st.j) st.b st.c st.d + st.x.getD r 0 + k) % M32) +
        st.e) % M32) fun t =>
    ⟨st.j + 1, rs, ss, ks, st.x, st.e, t, st.b, rotl32 10 st.c, st.d⟩
  | _, _, _ => st

/-- Parses a 64-byte block into sixteen little-endian 32-bit words. -/
def w32StepLE (s : List Nat × List Nat) : List Nat × List Nat :=
  match s with
  | (b0 :: b1 :: b2 :: b3 :: rest, acc) =>
    forceN (((b3 * 256 + b2) * 256 + b1) * 256 + b0) (fun w => (rest, w :: acc))
  | (l, acc) => (l, acc)

def bytesToW32LE (bs : List Nat) : List Nat :=
  (natIter w32StepLE 16 (bs, [])).2.reverse

/-- The RIPEMD-160 compression function on one 64-byte block. -/
def ripemdCompress (h : List Nat) (block : List Nat) : List Nat :=
  let X := bytesToW32LE block
  match h with
  | [h0, h1, h2, h3, h4] =>
    let L := natIter ripStepLeft 80 ⟨0, ripemdRL, ripemdSL, ripemdKL, X, h0, h1, h2, h3, h4⟩
    let R := natIter ripStepRight 80 ⟨0, ripemdRR, ripemdSR, ripemdKR, X, h0, h1, h2, h3, h4⟩
    forceN ((h1 + L.c + R.d) % M32) fun n0 =>
    forceN ((h2 + L.d + R.e) % M32) fun n1 =>
    forceN ((h3 + L.e + R.a) % M32) fun n2 =>
    forceN ((h4 + L.a + R.b) % M32) fun n3 =>
    forceN ((h0 + L.b + R.c) % M32) fun n4 =>
    [n0, n1, n2, n3, n4]
  | _ => h

def w64leBytes (x : Nat) : List Nat :=
  [x % 256, x / 2 ^ 8 % 256, x / 2 ^ 16 % 256, x / 2 ^ 24 % 256,
   x / 2 ^ 32 % 256, x / 2 ^ 40 % 256, x / 2 ^ 48 % 256, x / 2 ^ 56 % 256]

def w32leBytes (x : Nat) : List Nat :=
  [x % 256, x / 256 % 256, x / 65536 % 256, x / 16777216 % 256]

/-- RIPEMD-160 padding: like SHA-256 but with a little-endian bit length. -/
def ripemdPad (msg : List Nat) : List Nat :=
  msg ++ 128 :: List.replicate ((64 - (msg.length + 9) % 64) % 64) 0 ++ w64leBytes (8 * msg.length)

def ripemdBlockStep (s : List Nat × List Nat) : List Nat × List Nat :=
  (s.1.drop 64, ripemdCompress s.2 (s.1.take 64))

/-- RIPEMD-160 of a byte sequence. -/
def ripemd160 (msg : List Nat) : List Nat :=
  let padded := ripemdPad msg
  let h := (natIter ripemdBlockStep (padded.length / 64)
    (padded, [0x67452301, 0xEFCDAB89, 0x98BADCFE, 0x10325476, 0xC3D2E1F0])).2
  match h with
  | [h0, h1, h2, h3, h4] =>
    w32leBytes h0 ++ w32leBytes h1 ++ w32leBytes h2 ++ w32leBytes h3 ++ w32leBytes h4
  | _ => []

/-- Modelled from the spec (§4.1): the short-hash (hash160) primitive applies
one digest followed by a second, different, shorter digest. -/
def hash160 (b : List Nat) : List Nat := ripemd160 (sha256 b)

/-! ### Byte, radix and text encoding utilities (spec §4.1) -/

/-- Accumulating value of a most-significant-first digit list in a radix. -/
def radixVal (base : Nat) : List Nat → Nat → Nat
  | [], acc => acc
  | d :: ds, acc => radixVal base ds (acc * base + d)

/-- The value of a most-significant-first digit list in a radix. -/
def radixValue (base : Nat) (ds : List Nat) : Nat := radixVal base ds 0

/-- Minimal most-significant-first digits of `n` in a radix, with fuel. -/
def natDigitsAux (base : Nat) : Nat → Nat → List Nat → List Nat
  | 0, _, acc => acc
  | f+1, n, acc => if n = 0 then acc else natDigitsAux base f (n / base) (n % base :: acc)

/-- Minimal most-significant-first digit list of `n` in a radix (`[]` for 0);
correct when `n < base ^ fuel`. -/
def natDigits (base fuel n : Nat) : List Nat := natDigitsAux base fuel n []

/-- Big-endian value of a byte string. -/
def bytesToNatBE (bs : List Nat) : Nat := radixValue 256 bs

/-- Big-endian bytes of `n`, left-padded with zeros to width `w`. -/
def natBytesBEPad (w n : Nat) : List Nat :=
  let ds := natDigits 256 w n
  List.replicate (w - ds.length) 0 ++ ds

/-- Modelled from the spec (§4.1): pack an unsigned integer as 4 little-endian
bytes. -/
def pack_u32 (x : Nat) : List Nat := w32leBytes (x % 2 ^ 32)

/-- Modelled from the spec (§4.1): pack an unsigned integer as 8 little-endian
bytes. -/
def pack_u64 (x : Nat) : List Nat := w64leBytes (x % 2 ^ 64)

/-- Modelled from the spec (§4.1): the compact-size variable-length integer
encoding: values below 0xfd in one byte; larger values as an escape byte
followed by a 2-, 4- or 8-byte little-endian encoding. -/
def packCompact (x : Nat) : List Nat :=
  if x < 0xfd then [x]
  else if x ≤ 0xffff then 0xfd :: [x % 256, x / 256 % 256]
  else if x ≤ 0xffffffff then 0xfe :: w32leBytes x
  else 0xff :: w64leBytes (x % 2 ^ 64)

def hexChars : List Char := "0123456789abcdef".toList

/-- Modelled from the spec: render bytes as a lowercase hexadecimal string
(the test helper bytes_to_str). -/
def bytes_to_str (bs : List Nat) : String :=
  String.mk (bs.foldr (fun b acc => hexChars.getD (b / 16) '0' :: hexChars.getD (b % 16) '0' :: acc) [])

/-- Index of a character in a list, or `none`. -/
def lookupAux : List Char → Nat → Char → Option Nat
  | [], _, _ => none
  | a :: rest, i, c => if c = a then some i else lookupAux rest (i + 1) c

def hexVal (c : Char) : Option Nat := lookupAux hexChars 0 c

/-- Parse a hexadecimal string into bytes (the Python bytes.fromhex). -/
def hexToBytes : List Char → Option (List Nat)
  | [] => some []
  | c1 :: c2 :: rest =>
    match hexVal c1, hexVal c2, hexToBytes rest with
    | some h, some l, some bs => some ((h * 16 + l) :: bs)
    | _, _, _ => none
  | _ => none

/-- ASCII bytes of a string. -/
def asciiBytes (s : String) : List Nat := s.toList.map Char.toNat

/-! ### Base58 with checksum (spec §4.1) -/

/-- The base58 alphabet: 58 symbols with no ambiguous characters. -/
def b58String : String := "123456789ABCDEFGHJKLMNPQRSTUVWXYZabcdefghijkmnopqrstuvwxyz"

def b58Index (c : Char) : Option Nat := lookupAux b58String.toList 0 c

def b58Char (v : Nat) : Char := b58String.toList.getD v '1'

/-- Digit values of a base58 string, or `none` on an invalid character. -/
def b58Digits : List Char → Option (List Nat)
  | [] => some []
  | c :: cs =>
    match b58Index c, b58Digits cs with
    | some v, some vs => some (v :: vs)
    | _, _ => none

/-- Number of leading elements equal to `v`. -/
def countLeading (v : Nat) : List Nat → Nat
  | [] => 0
  | d :: ds => if d = v then countLeading v ds + 1 else 0

/-- Modelled from the spec (§4.1): base58 decoding to bytes: each leading
alphabet-zero symbol contributes one zero byte, and the remaining value is
written in minimal big-endian bytes. -/
def b58decodeBytes (s : String) : Option (List Nat) :=
  (b58Digits s.toList).map fun ds =>
    List.replicate (countLeading 0 ds) 0 ++ natDigits 256 ds.length (radixValue 58 ds)

/-- Modelled from the spec (§4.1): base58 encoding of bytes. -/
def b58encodeBytes (bs : List Nat) : String :=
  String.mk (List.replicate (countLeading 0 bs) '1' ++
    (natDigits 58 (2 * bs.length) (bytesToNatBE bs)).map b58Char)

inductive B58Err where
  | badChar : B58Err
  | badChecksum : B58Err
deriving DecidableEq

instance instDecEqExceptB58 : DecidableEq (Except B58Err (List Nat))
  | Except.ok a, Except.ok b =>
    if h : a = b then Decidable.isTrue (by rw [h])
    else Decidable.isFalse (fun hc => h (Except.ok.inj hc))
  | Except.ok _, Except.error _ => Decidable.isFalse (fun hc => Except.noConfusion hc)
  | Except.error _, Except.ok _ => Decidable.isFalse (fun hc => Except.noConfusion hc)
  | Except.error a, Except.error b =>
    if h : a = b then Decidable.isTrue (by rw [h])
    else Decidable.isFalse (fun hc => h (Except.error.inj hc))

/-- Modelled from the spec (§4.1): base58-with-checksum encode appends a
4-byte double-hash checksum of the payload before encoding. -/
def b58encode_check (payload : List Nat) : String :=
  b58encodeBytes (payload ++ (dhash payload).take 4)

/-- Modelled from the spec (§4.1): base58-with-checksum decode; fails with a
checksum-mismatch error if the trailing 4 bytes do not match the double-hash
of the payload. -/
def b58decode_check (s : String) : Except B58Err (List Nat) :=
  match b58decodeBytes s with
  | none => Except.error B58Err.badChar
  | some raw =>
    let payload := raw.take (raw.length - 4)
    let cks := raw.drop (raw.length - 4)
    if (dhash payload).take 4 = cks then Except.ok payload else Except.error B58Err.badChecksum

/-! ### Base64 (spec §4.2, message-signature text encoding) -/

def b64String : String :=
  "ABCDEFGHIJKLMNOPQRSTUVWXYZabcdefghijklmnopqrstuvwxyz0123456789+/"

def b64Char (v : Nat) : Char := b64String.toList.getD v 'A'

def b64Index (c : Char) : Option Nat := lookupAux b64String.toList 0 c

/-- Base64 encoding of bytes, with `=` padding. -/
def b64encodeAux : List Nat → List Char
  | b0 :: b1 :: b2 :: rest =>
    b64Char (b0 / 4) :: b64Char (b0 % 4 * 16 + b1 / 16) ::
    b64Char (b1 % 16 * 4 + b2 / 64) :: b64Char (b2 % 64) :: b64encodeAux rest
  | [b0, b1] => [b64Char (b0 / 4), b64Char (b0 % 4 * 16 + b1 / 16), b64Char (b1 % 16 * 4), '=']
  | [b0] => [b64Char (b0 / 4), b64Char (b0 % 4 * 16), '=', '=']
  | [] => []

def b64encode (bs : List Nat) : String := String.mk (b64encodeAux bs)

/-- Base64 decoding to bytes, or `none` on malformed input. -/
def b64decodeAux : List Char → Option (List Nat)
  | [] => some []
  | [c0, c1, '=', '='] =>
    match b64Index c0, b64Index c1 with
    | some v0, some v1 => some [v0 * 4 + v1 / 16]
    | _, _ => none
  | [c0, c1, c2, '='] =>
    match b64Index c0, b64Index c1, b64Index c2 with
    | some v0, some v1, some v2 => some [v0 * 4 + v1 / 16, v1 % 16 * 16 + v2 / 4]
    | _, _, _ => none
  | c0 :: c1 :: c2 :: c3 :: rest =>
    match b64Index c0, b64Index c1, b64Index c2, b64Index c3, b64decodeAux rest with
    | some v0, some v1, some v2, some v3, some bs =>
      some ((v0 * 4 + v1 / 16) :: (v1 % 16 * 16 + v2 / 4) :: (v2 % 4 * 64 + v3) :: bs)
    | _, _, _, _, _ => none
  | _ => none

def b64decode (s : String) : Option (List Nat) := b64decodeAux s.toList

/-! ### secp256k1 arithmetic (spec §4.2)

Modelled from the spec: scalar/point arithmetic over the curve
y^2 = x^3 + 7 over the prime field of order `pF`, with group order `nN`.
Points are kept in Jacobian coordinates (x, y, z), representing the affine
point (x / z^2, y / z^3); z = 0 represents the point at infinity.  The point
formulas mirror the polynomial addition and doubling formulas of
Mathlib.AlgebraicGeometry.EllipticCurve.Jacobian specialized to this curve. -/

/-- The secp256k1 field prime, 2^256 - 2^32 - 977. -/
def pF : Nat := 115792089237316195423570985008687907853269984665640564039457584007908834671663

/-- The secp256k1 group order. -/
def nN : Nat := 115792089237316195423570985008687907852837564279074904382605163141518161494337

/-- Addition in the field of `pF` elements, on reduced representatives. -/
def fadd (a b : Nat) : Nat := (a + b) % pF

/-- Subtraction in the field of `pF` elements. -/
def fsub (a b : Nat) : Nat := (a + (pF - b % pF)) % pF

/-- Multiplication in the field of `pF` elements. -/
def fmul (a b : Nat) : Nat := a * b % pF

structure JacPt where
  x : Nat
  y : Nat
  z : Nat
deriving DecidableEq

/-- The point at infinity. -/
def jacInf : JacPt := ⟨1, 1, 0⟩

/-- Jacobian doubling; mirrors Mathlib's dblXYZ for this curve:
with u = -3x^2 and w = 2y, the result is
(u^2 - 2xw^2, u*(dblX - xw^2) - yw^3, zw). -/
def jacDbl (P : JacPt) : JacPt :=
  let u := fsub 0 (fmul 3 (fmul P.x P.x))
  let w := fadd P.y P.y
  let w2 := fmul w w
  let xw2 := fmul P.x w2
  let X := fsub (fmul u u) (fadd xw2 xw2)
  let Y := fsub (fmul u (fsub X xw2)) (fmul P.y (fmul w2 w))
  ⟨X, Y, fmul P.z w⟩

/-- Jacobian addition; the two candidate branches mirror Mathlib's `add`:
doubling when the two points are equivalent, and the distinct-point
polynomials addX, addY, addZ otherwise. -/
def jacAdd (P Q : JacPt) : JacPt :=
  if (P.z = 0 ∧ Q.z = 0) ∨
     (¬P.z = 0 ∧ ¬Q.z = 0 ∧ fmul P.x (fmul Q.z Q.z) = fmul Q.x (fmul P.z P.z) ∧
      fmul P.y (fmul Q.z (fmul Q.z Q.z)) = fmul Q.y (fmul P.z (fmul P.z P.z))) then
    jacDbl P
  else
    let z12 := fmul P.z P.z
    let z22 := fmul Q.z Q.z
    let X := fadd (fsub (fmul P.x (fmul Q.x (fmul Q.x z12)))
                        (fmul 2 (fmul P.y (fmul Q.y (fmul P.z Q.z)))))
                  (fadd (fmul P.x (fmul P.x (fmul Q.x z22)))
                        (fmul 14 (fmul z12 (fmul z12 (fmul z22 z22)))))
    let Yn := fadd (fadd (fsub (fmul 2 (fmul P.y (fmul Q.y (fmul Q.y (fmul P.z z12)))))
                               (fmul P.y (fmul Q.x (fmul Q.x (fmul Q.x (fmul P.z z12))))))
                         (fsub (fmul 3 (fmul P.x (fmul P.y (fmul Q.x (fmul Q.x (fmul P.z z22))))))
                               (fmul 3 (fmul P.x (fmul P.x (fmul Q.x (fmul Q.y (fmul z12 Q.z))))))))
                   (fadd (fsub (fmul P.x (fmul P.x (fmul P.x (fmul Q.y (fmul Q.z z22)))))
                               (fmul 2 (fmul P.y (fmul P.y (fmul Q.y (fmul Q.z z22))))))
                         (fsub (fmul 14 (fmul P.y (fmul P.z (fmul z12 (fmul z22 (fmul z22 z22))))))
                               (fmul 14 (fmul Q.y (fmul z12 (fmul z12 (fmul z12 (fmul Q.z z22))))))))
    let Z := fsub (fmul P.x z22) (fmul Q.x z12)
    ⟨X, fsub 0 Yn, Z⟩

/-- One double-and-add step: the state is (remaining scalar, accumulator, base). -/
def jacMulStep (s : Nat × JacPt × JacPt) : Nat × JacPt × JacPt :=
  (s.1 / 2, (if s.1 % 2 = 1 then jacAdd s.2.1 s.2.2 else s.2.1), jacDbl s.2.2)

/-- Scalar multiplication by double-and-add, for scalars below 2^256. -/
def jacMul (k : Nat) (P : JacPt) : JacPt := (natIter jacMulStep 256 (k, jacInf, P)).2.1

/-- Field inversion by Fermat's little theorem. -/
def finv (a : Nat) : Nat := powMod a (pF - 2) pF

/-- Conversion from Jacobian to affine coordinates; `none` at infinity. -/
def jacToAffine (P : JacPt) : Option (Nat × Nat) :=
  if P.z = 0 then none
  else
    let zi := finv P.z
    let zi2 := fmul zi zi
    some (fmul P.x zi2, fmul P.y (fmul zi2 zi))

/-- The secp256k1 base point. -/
def Gpt : JacPt := ⟨0x79BE667EF9DCBBAC55A06295CE870B07029BFCDB2DCE28D959F2815B16F81798,
                    0x483ADA7726A3C4655DA4FBFC0E1108A8FD17B448A68554199C47D08FFB10D4B8, 1⟩

/-- Modelled from the spec (§4.2): the public key point of a scalar is the
scalar multiple of the base point; `none` when the multiple is infinity. -/
def derive_public_key (d : Nat) : Option (Nat × Nat) := jacToAffine (jacMul d Gpt)

/-! ### Keys and ECDSA signatures (spec §4.2) -/

/-- Modelled from the spec: a public key wraps a curve point plus a
compression flag. -/
structure PublicKey where
  x : Nat
  y : Nat
  compressed : Bool
deriving DecidableEq

def PublicKey.point (p : PublicKey) : Nat × Nat := (p.x, p.y)

/-- Modelled from the spec: a private key wraps a scalar, together with the
WIF compression selector for its derived public key. -/
structure PrivateKey where
  d : Nat
  compressed : Bool
deriving DecidableEq

/-- The public key derived on demand from a private key. -/
def PrivateKey.public_key (k : PrivateKey) : Option PublicKey :=
  (derive_public_key k.d).map fun p => ⟨p.1, p.2, k.compressed⟩

/-- Modelled from the spec: serialized public key, compressed (33 bytes,
leading 2 or 3 by parity of y) or uncompressed (65 bytes, leading 4). -/
def PublicKey.toBytes (p : PublicKey) : List Nat :=
  if p.compressed then (2 + p.y % 2) :: natBytesBEPad 32 p.x
  else 4 :: (natBytesBEPad 32 p.x ++ natBytesBEPad 32 p.y)

/-- Modelled from the spec: parse a serialized public key (uncompressed form;
a compressed form is recovered by solving the curve equation). -/
def PublicKey.from_bytes (bs : List Nat) : Option PublicKey :=
  match bs with
  | 4 :: rest =>
    if rest.length = 64 then
      some ⟨bytesToNatBE (rest.take 32), bytesToNatBE (rest.drop 32), false⟩
    else none
  | b :: rest =>
    if (b = 2 ∨ b = 3) ∧ rest.length = 32 then
      let x := bytesToNatBE rest
      let beta := powMod (fmul x (fmul x x) + 7) ((pF + 1) / 4) pF
      let y := if beta % 2 = b % 2 then beta else pF - beta
      some ⟨x, y, true⟩
    else none
  | _ => none

/-- Modelled from the spec (§4.2): address bytes are the version byte 0
followed by the short-hash of the serialized public key. -/
def PublicKey.address (p : PublicKey) : List Nat := 0 :: hash160 p.toBytes

/-- Modelled from the spec (§4.2): the base58-checksummed address. -/
def PublicKey.b58address (p : PublicKey) : String := b58encode_check p.address

/-- Modelled from the spec: decode a base58check address into its version
byte and key hash (the test helper address_to_key_hash). -/
def address_to_key_hash (s : String) : Option (Nat × List Nat) :=
  match b58decode_check s with
  | Except.ok (v :: h) => some (v, h)
  | _ => none

/-- Modelled from the spec (§4.2): WIF import: a version-prefixed (0x80),
checksum-protected base58 string; a trailing 0x01 byte selects a compressed
public key. -/
def PrivateKey.from_b58check (s : String) : Option PrivateKey :=
  match b58decode_check s with
  | Except.error _ => none
  | Except.ok payload =>
    match payload with
    | 128 :: rest =>
      if rest.length = 32 then some ⟨bytesToNatBE rest, false⟩
      else if rest.length = 33 ∧ rest.getLast? = some 1 then
        some ⟨bytesToNatBE (rest.take 32), true⟩
      else none
    | _ => none

/-- Modelled from the spec (§4.2): WIF export, inverse of from_b58check. -/
def PrivateKey.to_b58check (k : PrivateKey) : String :=
  b58encode_check (128 :: (natBytesBEPad 32 k.d ++ if k.compressed then [1] else []))

/-- Modelled from the spec: an ECDSA signature (r, s) with an optional
recovery indicator. -/
structure Signature where
  r : Nat
  s : Nat
  recovery_id : Option Nat
deriving DecidableEq

/-- Modelled from the spec (§4.2): candidate public-key recovery: rebuild the
point R from r (plus the indicator's x-overflow bit), taking the square root
of x^3 + 7 with the indicator's parity bit, and return r^-1 (s R - h G). -/
def recoverPoint (h r s recid : Nat) : Option (Nat × Nat) :=
  let x := r + recid / 2 * nN
  if pF ≤ x then none
  else
    let alpha := (fmul x (fmul x x) + 7) % pF
    let beta := powMod alpha ((pF + 1) / 4) pF
    if fmul beta beta ≠ alpha then none
    else
      let y := if beta % 2 = recid % 2 then beta else (pF - beta) % pF
      let rinv := powMod r (nN - 2) nN
      let negHG := jacMul ((nN - h % nN) % nN) Gpt
      jacToAffine (jacMul rinv (jacAdd (jacMul s ⟨x, y, 1⟩) negHG))

/-- The recovery indicator: the first of the four candidate indices whose
recovered point equals the signer's public key (spec §4.2). -/
def findRecid (h r s : Nat) (pub : Option (Nat × Nat)) : Option Nat :=
  if recoverPoint h r s 0 = pub then some 0
  else if recoverPoint h r s 1 = pub then some 1
  else if recoverPoint h r s 2 = pub then some 2
  else if recoverPoint h r s 3 = pub then some 3
  else none

/-- Canonicalization of s to the lower of itself and its negation mod the
order (spec §4.2, §3). -/
def lowS (s0 : Nat) : Nat := if s0 ≤ nN - s0 then s0 else nN - s0

/-- Modelled from the spec (§4.2): ECDSA signing of the message hash `h` by
the scalar `d` with nonce `k`: r is the x-coordinate of kG reduced mod the
order, s = k^-1 (h + r d) canonicalized to the lower of itself and its
negation; r = 0 or s = 0 signals the retryable resampling condition, here
surfaced as `none`.  A recovery indicator is computed identifying which
candidate recovered point equals the signer's public key. -/
def ecdsa_sign (h d k : Nat) : Option Signature :=
  match jacToAffine (jacMul k Gpt) with
  | none => none
  | some R =>
    if R.1 % nN = 0 then none
    else if powMod k (nN - 2) nN * ((h + R.1 % nN * d) % nN) % nN = 0 then none
    else
      match findRecid h (R.1 % nN)
          (lowS (powMod k (nN - 2) nN * ((h + R.1 % nN * d) % nN) % nN))
          (derive_public_key d) with
      | some i =>
        some ⟨R.1 % nN, lowS (powMod k (nN - 2) nN * ((h + R.1 % nN * d) % nN) % nN), some i⟩
      | none => none

/-- Modelled from the spec (§4.2): the standard ECDSA verification equation;
rejects signatures with r or s outside (0, order). -/
def ecdsa_verify (h : Nat) (sig : Signature) (P : Nat × Nat) : Bool :=
  if sig.r = 0 ∨ sig.s = 0 ∨ nN ≤ sig.r ∨ nN ≤ sig.s then false
  else
    let w := powMod sig.s (nN - 2) nN
    match jacToAffine (jacAdd (jacMul (h * w % nN) Gpt) (jacMul (sig.r * w % nN) ⟨P.1, P.2, 1⟩)) with
    | none => false
    | some Rp => decide (Rp.1 % nN = sig.r)

/-- Verification, taking the message hash as bytes. -/
def PublicKey.verify (p : PublicKey) (hashBytes : List Nat) (sig : Signature) : Bool :=
  ecdsa_verify (bytesToNatBE hashBytes) sig p.point

/-- Modelled from the spec (§4.2): public-key recovery from a hash and a
signature carrying its recovery indicator; fails if the indicator is absent
or no consistent point exists. -/
def PublicKey.from_signature (hashBytes : List Nat) (sig : Signature) : Option PublicKey :=
  match sig.recovery_id with
  | none => none
  | some i => (recoverPoint (bytesToNatBE hashBytes) sig.r sig.s i).map fun p => ⟨p.1, p.2, false⟩

/-- Modelled from the spec (§4.2): DER encoding of one integer, minimal length
with a leading zero byte whenever the high bit would otherwise be set. -/
def derInt (x : Nat) : List Nat :=
  let b := natDigits 256 33 x
  let b2 := if b = [] then [0] else if 128 ≤ b.headD 0 then 0 :: b else b
  2 :: b2.length :: b2

/-- Modelled from the spec (§4.2): DER encoding of (r, s). -/
def Signature.to_der (sig : Signature) : List Nat :=
  let body := derInt sig.r ++ derInt sig.s
  48 :: body.length :: body

/-- Modelled from the spec (§4.2): DER decoding of (r, s). -/
def Signature.from_der (bs : List Nat) : Option Signature :=
  match bs with
  | 48 :: _ :: 2 :: l1 :: rest =>
    let r := bytesToNatBE (rest.take l1)
    match rest.drop l1 with
    | 2 :: l2 :: rest2 => some ⟨r, bytesToNatBE (rest2.take l2), none⟩
    | _ => none
  | _ => none

/-- Modelled from the spec: a 64-byte (r, s) compact signature. -/
def Signature.from_bytes (bs : List Nat) : Option Signature :=
  if bs.length = 64 then some ⟨bytesToNatBE (bs.take 32), bytesToNatBE (bs.drop 32), none⟩
  else none

/-- The magic-prefixed message of the Bitcoin message-signing scheme. -/
def bitcoinMessage (msg : List Nat) : List Nat :=
  24 :: (asciiBytes "Bitcoin Signed Message:\n" ++ msg.length % 256 :: msg)

/-- Modelled from the spec (§4.2): Bitcoin-style message signing: prefix the
message with the magic string and its length, double-hash it, sign, and
base64-encode 1 header byte (27 + recovery indicator, +4 if compressed)
followed by the 64-byte (r, s). -/
def PrivateKey.sign_bitcoin (key : PrivateKey) (msg : List Nat) (k : Nat) : Option String :=
  let h := bytesToNatBE (dhash (bitcoinMessage msg))
  match ecdsa_sign h key.d k with
  | some sig =>
    match sig.recovery_id with
    | some i =>
      some (b64encode ((27 + i + if key.compressed then 4 else 0) ::
        (natBytesBEPad 32 sig.r ++ natBytesBEPad 32 sig.s)))
    | none => none
  | none => none

/-! ### Scripts (spec §4.3) -/

/-- Modelled from the spec (§4.3): a script element is an opcode token or a
literal data push. -/
inductive ScriptElem where
  | op : Nat → ScriptElem
  | push : List Nat → ScriptElem
deriving DecidableEq

/-- A script is an ordered sequence of elements. -/
abbrev Script := List ScriptElem

/-- Modelled from the spec (§4.3): the canonical five-element
pay-to-public-key-hash pattern: duplicate-top-of-stack, hash160, push the
20-byte hash, equality-verify, check-signature. -/
def Script.build_p2pkh (h : List Nat) : Script :=
  [ScriptElem.op 0x76, ScriptElem.op 0xa9, ScriptElem.push h,
   ScriptElem.op 0x88, ScriptElem.op 0xac]

/-- Modelled from the spec (§4.3): opcodes serialize to their single-byte
codes, data pushes are length-prefixed (direct-length form, which covers all
pushes below 0x4c bytes used by this core). -/
def serializeElem : ScriptElem → List Nat
  | ScriptElem.op c => [c]
  | ScriptElem.push d => d.length :: d

/-- The serialized bytes of a script. -/
def serializeScript (s : Script) : List Nat := (s.map serializeElem).foldr (· ++ ·) []

/-- A script with its compact-size length prefix, as embedded in a
transaction (spec §4.3). -/
def scriptLP (s : Script) : List Nat :=
  packCompact (serializeScript s).length ++ serializeScript s

/-! ### Transactions (spec §3, §4.4) -/

/-- Modelled from the spec (§3): a transaction input: previous transaction
hash (32 bytes, as stored and transmitted), previous output index, unlocking
script, sequence number. -/
structure TransactionInput where
  outpoint : List Nat
  outpoint_index : Nat
  script : Script
  sequence_num : Nat
deriving DecidableEq

/-- Modelled from the spec (§3): a transaction output: value in the smallest
currency unit and the locking script. -/
structure TransactionOutput where
  value : Nat
  script : Script
deriving DecidableEq

/-- Modelled from the spec (§3): a transaction. -/
structure Transaction where
  version : Nat
  inputs : List TransactionInput
  outputs : List TransactionOutput
  lock_time : Nat
deriving DecidableEq

def Transaction.DEFAULT_TRANSACTION_VERSION : Nat := 1

def Transaction.SIG_HASH_ALL : Nat := 1

/-- Serialized input: previous hash, 4-byte little-endian index,
length-prefixed unlocking script, 4-byte little-endian sequence (spec §4.4). -/
def serializeInput (i : TransactionInput) : List Nat :=
  i.outpoint ++ pack_u32 i.outpoint_index ++ scriptLP i.script ++ pack_u32 i.sequence_num

/-- Serialized output: 8-byte little-endian value, length-prefixed locking
script (spec §4.4). -/
def serializeOutput (o : TransactionOutput) : List Nat :=
  pack_u64 o.value ++ scriptLP o.script

/-- Modelled from the spec (§4.4): the exact binary serialization of a
transaction. -/
def Transaction.serialize (t : Transaction) : List Nat :=
  pack_u32 t.version ++ packCompact t.inputs.length ++
  (t.inputs.map serializeInput).foldr (· ++ ·) [] ++
  packCompact t.outputs.length ++
  (t.outputs.map serializeOutput).foldr (· ++ ·) [] ++
  pack_u32 t.lock_time

/-- Maps a function with its position index over a list. -/
def mapIdxFrom {α : Type} (f : Nat → α → α) : Nat → List α → List α
  | _, [] => []
  | k, x :: xs => f k x :: mapIdxFrom f (k + 1) xs

/-- Modelled from the spec (§4.4): the transformed copy of a transaction used
by the legacy signature-hash algorithm: every input's unlocking script is
cleared to empty except the input at `idx`, whose script is replaced with the
previous locking script; outputs are included unmodified (sign-all mode). -/
def Transaction.sigHashCopy (t : Transaction) (idx : Nat) (sub : Script) : Transaction :=
  let f := fun j inp => if j = idx then { inp with script := sub }
                        else { inp with script := ([] : Script) }
  { t with inputs := mapIdxFrom f 0 t.inputs }

/-- Modelled from the spec (§4.4): serialize the transformed transaction,
append the 4-byte little-endian sighash type, and double-hash. -/
def Transaction.compute_signature_hash (t : Transaction) (idx sighashType : Nat)
    (sub : Script) : List Nat :=
  dhash ((t.sigHashCopy idx sub).serialize ++ pack_u32 sighashType)

/-- Modelled from the spec (§4.4): sign one input with the given nonce:
compute the signature hash, sign it, DER-encode with the sighash type
appended as a trailing byte, and overwrite the target input's unlocking
script with a push of the signature blob followed by a push of the signer's
serialized public key. -/
def Transaction.sign_input (t : Transaction) (idx sighashType : Nat) (key : PrivateKey)
    (sub : Script) (k : Nat) : Option Transaction :=
  let h := bytesToNatBE (t.compute_signature_hash idx sighashType sub)
  match ecdsa_sign h key.d k, key.public_key with
  | some sig, some pub =>
    let blob := sig.to_der ++ [sighashType % 256]
    let f := fun j inp => if j = idx then
        { inp with script := [ScriptElem.push blob, ScriptElem.push pub.toBytes] }
      else inp
    some { t with inputs := mapIdxFrom f 0 t.inputs }
  | _, _ => none

/-! ### The earnings-log headline formatter

Modelled directly from `two1/commands/log.py` (`get_headline`): the headline
text is the local date string, a colon, and the amount in Satoshis; the
styling color is green when the amount is strictly positive and red
otherwise.  `click.style` is modelled as tagging the text with its color, and
`datetime.fromtimestamp(...).strftime(...)` as an externally supplied local
date string. -/

structure StyledText where
  text : String
  color : String
deriving DecidableEq

def click_style (text color : String) : StyledText := ⟨text, color⟩

def get_headline (localDate : String) (amount : Int) : StyledText :=
  let headline := localDate ++ " : " ++ toString amount ++ " Satoshis"
  let color := if amount > 0 then "green" else "red"
  click_style headline color

/-! ### Test fixtures (two1/bitcoin/tests/test_signing.py)

The two fixture key pairs, the fixture transaction, and the expected
signatures.  The signing nonces are written out explicitly: the spec (§4.2)
leaves the nonce-generation scheme open (deterministic or randomized), so the
model's signing operation takes the nonce as an argument; the values below
are the nonces recovered from the signatures recorded in the test fixture
(k = s^-1 (h + r d) mod n). -/

def wif1 : String := "5JcjcDkFZ3Dz4RjnK3n9cyLVmNS3FzGdNRtNMGFBfJKgzM8eAhH"

def wif2 : String := "5KK5GkzYJKa7evzYPdvDPmB9XWaKQY9qJS5ouRx4ndBHNHbb2Hq"

def privkey1 : PrivateKey := (PrivateKey.from_b58check wif1).getD ⟨0, false⟩

def privkey2 : PrivateKey := (PrivateKey.from_b58check wif2).getD ⟨0, false⟩

def pubkey1 : PublicKey :=
  ⟨0xe674caf81eb3bb4a97f2acf81b54dc930d9db6a6805fd46ca74ac3ab212c0bbf,
   0x62164a11e7edaf31fbf24a878087d925303079f2556664f3b32d125f2138cbef, false⟩

def pubkey2 : PublicKey :=
  ⟨0x5866260447c0adfdb26dbe5060a7a298e17d051008ce1677d19fe3d3373284b9,
   0xc384a3445dd96f96c11d3b33d82083e9ecc27d0abfa9fd433afaa5006186bf61, false⟩

def address1 : String := pubkey1.b58address

def address2 : String := pubkey2.b58address

def prev_txn : String := "205607fb482a03600b736fb0c257dfd4faa49e45db3990e2c4994796031eae6e"

def prev_txn_hash : List Nat := (hexToBytes prev_txn.toList).getD []

def prev_script_pub_key : Script :=
  Script.build_p2pkh ((address_to_key_hash address1).getD (0, [])).2

def out_script_pub_key : Script :=
  Script.build_p2pkh ((address_to_key_hash address2).getD (0, [])).2

def fixture_txn_input : TransactionInput := ⟨prev_txn_hash, 0, [], 0xffffffff⟩

def fixture_txn_output : TransactionOutput := ⟨9000, out_script_pub_key⟩

def fixtureTxn : Transaction :=
  ⟨Transaction.DEFAULT_TRANSACTION_VERSION, [fixture_txn_input], [fixture_txn_output], 0⟩

/-- The signing nonce recovered from the fixture transaction's signature. -/
def k1nonce : Nat := 0xae19dc815987e61b0e9cbd2c547ed10468dcca2f0da7f349f902c38baabb131f

/-- The fixture transaction with input 0 signed. -/
def signedTxn : Option Transaction :=
  fixtureTxn.sign_input 0 Transaction.SIG_HASH_ALL privkey1 prev_script_pub_key k1nonce

/-- The expected signed-transaction hex string recorded in the test fixture. -/
def fixtureSignedHex : String :=
  "0100000001205607fb482a03600b736fb0c257dfd4faa49e45db3990e2c4994796031eae6e000000008b483045022100ed84be709227397fb1bc13b749f235e1f98f07ef8216f15da79e926b99d2bdeb02206ff39819d91bc81fecd74e59a721a38b00725389abb9cbecb42ad1c939fd8262014104e674caf81eb3bb4a97f2acf81b54dc930d9db6a6805fd46ca74ac3ab212c0bbf62164a11e7edaf31fbf24a878087d925303079f2556664f3b32d125f2138cbefffffffff0128230000000000001976a914f1fd1dc65af03c30fe743ac63cef3a120ffab57d88ac00000000"

/-- The on-chain transaction id of the signed fixture transaction, from the
block-explorer link recorded in the test. -/
def fixtureTxidHex : String :=
  "695f0b8605cc8a117c3fe5b959e6ee2fabfa49dcc615ac496b5dd114105cd360"

def fixtureMessage : List Nat := asciiBytes "Hello, World!!"

/-- The signing nonce recovered from the fixture message signature. -/
def kmnonce : Nat := 0xf9e99c96fb5559c7d1c4faa333bd7b5ecedc28ad5455711b9256513e57812527

/-- The expected base64 message signature recorded in the test fixture. -/
def fixtureMsgSig : String :=
  "G1axea+IdcHXdLH6mO5RLLFpwfLHq0aeCio2IBkntGPrBYKuLybWBoF/ZUivx179qGUU9/1kv9GND9sLvsSBlzw="

/-! ### Derived fixture pipelines used by the claims -/

/-- Modelled from the spec (§4.4): the commonly displayed hexadecimal form of
a 32-byte transaction hash is the hex of the byte-reversal of its stored and
transmitted form. -/
def displayedHashHex (stored : List Nat) : String := bytes_to_str stored.reverse

/-- Replace the character at position `i` of a string. -/
def replaceAt (s : String) (i : Nat) (c : Char) : String := String.mk (s.toList.set i c)

/-- The public key recovered from the fixture message signature, following
the test: base64-decode, split header and 64-byte signature, set the recovery
indicator to the header byte minus 27, and recover from the message hash. -/
def fixtureRecovered : Option PublicKey :=
  match b64decode fixtureMsgSig with
  | some (header :: rest) =>
    match Signature.from_bytes rest with
    | some sig0 =>
      PublicKey.from_signature (dhash (bitcoinMessage fixtureMessage))
        { sig0 with recovery_id := some (header - 27) }
    | none => none
  | _ => none

/-- The signature blob and serialized public key pushed into input 0's
unlocking script by the fixture signing. -/
def fixtureScriptSig : Option (List Nat × List Nat) :=
  match signedTxn with
  | some t =>
    match t.inputs with
    | [inp] =>
      match inp.script with
      | [ScriptElem.push blob, ScriptElem.push pubBytes] => some (blob, pubBytes)
      | _ => none
    | _ => none
  | none => none

/-- Verifies the fixture unlocking script's signature against a hash, as in
the test's manual stack evaluation: parse the public key and the DER
signature (dropping the trailing sighash-type byte) and run verification. -/
def fixtureVerifies (h : List Nat) : Bool :=
  match fixtureScriptSig with
  | some (blob, pubBytes) =>
    match PublicKey.from_bytes pubBytes, Signature.from_der blob.dropLast with
    | some pub, some sig => pub.verify h sig
    | _, _ => false
  | none => false

/-- The (r, s) parsed back from the DER signature of the signed fixture. -/
def fixtureDerSig : Option Signature :=
  fixtureScriptSig.bind fun pr => Signature.from_der pr.1.dropLast

/-! ## Claim theorems -/

/-- C10: in the earnings-log formatter, get_headline styles the headline
green exactly when the entry's amount is strictly greater than 0; an amount
of exactly 0 is styled red, the same color as negative amounts, and the
headline text is the local date followed by the amount in Satoshis. -/
theorem claim_C10_get_headline (d : String) (a : Int) :
    ((get_headline d a).color = "green" ↔ 0 < a) ∧
    (a = 0 → (get_headline d a).color = "red") ∧
    (a < 0 → (get_headline d a).color = "red") ∧
    (get_headline d a).text = d ++ " : " ++ toString a ++ " Satoshis" := by
  have hgc : (get_headline d a).color = if 0 < a then "green" else "red" := rfl
  have hgt : (get_headline d a).text = d ++ " : " ++ toString a ++ " Satoshis" := rfl
  refine ⟨?_, ?_, ?_, hgt⟩
  · rw [hgc]
    by_cases h : 0 < a
    · rw [if_pos h]
      exact ⟨fun _ => h, fun _ => rfl⟩
    · rw [if_neg h]
      exact ⟨fun hc => absurd hc (by decide), fun hp => absurd hp h⟩
  · intro h0
    rw [hgc, if_neg (by omega)]
  · intro hn
    rw [hgc, if_neg (by omega)]

theorem claim_C10_get_headline_witness :
    (get_headline "2015-08-27 00:00:00" 0).color = "red" ∧
    (get_headline "2015-08-27 00:00:00" 21).color = "green" :=
  ⟨(claim_C10_get_headline "2015-08-27 00:00:00" 0).2.1 rfl,
   (claim_C10_get_headline "2015-08-27 00:00:00" 21).1.mpr (by norm_num)⟩

set_option maxRecDepth 200000 in
set_option maxHeartbeats 4000000 in
/-- C1 (counterexample): the string given in the transaction test fixture is
224 bytes (448 hex digits), not 251 bytes, so the signed fixture transaction
cannot serialize to a 251-byte string: its serialization has exactly 224
bytes. -/
theorem claim_C1_counterexample :
    (signedTxn.map fun t => t.serialize.length) = some 224 ∧
    fixtureSignedHex.length = 448 ∧ ¬(224 = 251) := by
  refine ⟨by decide!, by decide!, by decide⟩

set_option maxRecDepth 200000 in
set_option maxHeartbeats 4000000 in
/-- C1 (as amended): signing input 0 of the fixture transaction (previous
hash 205607fb..., index 0, sequence 0xffffffff, empty unlocking script,
output of 9000 Satoshis locked to a pay-to-key-hash script over the second
key's address, version 1, lock-time 0) with the first fixture private key,
sign-all sighash type, the previous pay-to-key-hash locking script over the
first key's address, and the nonce recorded in the fixture signature,
produces a transaction whose byte serialization is exactly the 224-byte
(448-hex-digit) string given in the test fixture. -/
theorem claim_C1_sign_txn :
    PrivateKey.from_b58check wif1 = some privkey1 ∧
    privkey1.public_key = some pubkey1 ∧
    (signedTxn.map fun t => bytes_to_str t.serialize) = some fixtureSignedHex ∧
    fixtureSignedHex.length = 448 := by
  refine ⟨by decide!, by decide!, by decide!, by decide!⟩

set_option maxRecDepth 200000 in
set_option maxHeartbeats 4000000 in
/-- C2: signing the ASCII message Hello, World!! under the Bitcoin
message-signing scheme with the private key decoded from the first fixture
WIF string (and the nonce recorded in the fixture signature) yields exactly
the fixture's base64 signature, and recovering the public key from that
signature (recovery indicator = header byte minus 27) yields a key whose
base58 address equals the address derived directly from the private key. -/
theorem claim_C2_message_signing :
    privkey1.sign_bitcoin fixtureMessage kmnonce = some fixtureMsgSig ∧
    fixtureRecovered.isSome = true ∧
    fixtureRecovered.map PublicKey.b58address =
      (privkey1.public_key).map PublicKey.b58address := by
  refine ⟨by decide!, by decide!, by decide!⟩

set_option maxRecDepth 200000 in
set_option maxHeartbeats 4000000 in
/-- C3: the signature and public key extracted from input 0's unlocking
script of the signed fixture transaction verify against the recomputed
signature hash (the double-hash of the transformed transaction's
serialization with the 4-byte little-endian sighash type appended), and the
same signature does not verify against the double-hash of the serialized
transformed transaction without the sighash-type suffix. -/
theorem claim_C3_script_verification :
    fixtureScriptSig.isSome = true ∧
    fixtureVerifies
      (fixtureTxn.compute_signature_hash 0 Transaction.SIG_HASH_ALL prev_script_pub_key) = true ∧
    fixtureVerifies (dhash ((fixtureTxn.sigHashCopy 0 prev_script_pub_key).serialize)) = false := by
  refine ⟨by decide!, by decide!, by decide!⟩

set_option maxRecDepth 200000 in
set_option maxHeartbeats 4000000 in
/-- C9: every signature produced by signing satisfies the low-s invariant:
its s component is the lower of s and order - s, that is, at most
(order - 1) / 2 (equivalently 2 s < order); and in particular the s value
inside the DER-encoded signature of the signed fixture transaction is in the
lower half of the scalar range. -/
theorem claim_C9_low_s :
    (∀ h d k sig, ecdsa_sign h d k = some sig → 2 * sig.s < nN) ∧
    (fixtureDerSig.map fun sig => decide (2 * sig.s < nN)) = some true := by
  constructor
  · intro h d k sig hs
    have hn2 : nN % 2 = 1 := by decide
    have hn0 : 0 < nN := by decide
    unfold ecdsa_sign at hs
    split at hs
    · exact absurd hs (by simp)
    · split at hs
      · exact absurd hs (by simp)
      · split at hs
        · exact absurd hs (by simp)
        · rename_i R hR hr0 hs0
          split at hs
          · rename_i i hi
            rename_i hs0
            cases hs
            show 2 * lowS (powMod k (nN - 2) nN * ((h + R.1 % nN * d) % nN) % nN) < nN
            have hlt : powMod k (nN - 2) nN * ((h + R.1 % nN * d) % nN) % nN < nN :=
              Nat.mod_lt _ hn0
            unfold lowS
            split <;> omega
          · exact absurd hs (by simp)
  · decide!

set_option maxRecDepth 200000 in
set_option maxHeartbeats 4000000 in
/-- C9 witness: the generic low-s bound applied to the concrete signature
produced by signing hash 1 with scalar 1 and nonce 1. -/
theorem claim_C9_low_s_witness :
    2 * (Signature.mk
      0x79be667ef9dcbbac55a06295ce870b07029bfcdb2dce28d959f2815b16f81798
      0x79be667ef9dcbbac55a06295ce870b07029bfcdb2dce28d959f2815b16f81799
      (some 0)).s < nN :=
  claim_C9_low_s.1 1 1 1 _ (by decide!)

/-- The recovery indicator returned by the candidate search recovers exactly
the public key it was searched for. -/
theorem findRecid_spec (h r s : Nat) (pub : Option (Nat × Nat)) (i : Nat)
    (hi : findRecid h r s pub = some i) : recoverPoint h r s i = pub := by
  unfold findRecid at hi
  split at hi
  · cases hi; assumption
  · split at hi
    · cases hi; assumption
    · split at hi
      · cases hi; assumption
      · split at hi
        · cases hi; assumption
        · exact absurd hi (by simp)

/-- C7: every signature produced by signing carries a recovery indicator, and
recovering the public key from the hash and that signature returns exactly
the signer's public key (the point derived from the signing scalar). -/
theorem claim_C7_recover_of_sign (h d k : Nat) (sig : Signature)
    (hs : ecdsa_sign h d k = some sig) :
    ∃ i, sig.recovery_id = some i ∧
      recoverPoint h sig.r sig.s i = derive_public_key d ∧
      ∀ hb : List Nat, bytesToNatBE hb = h →
        (PublicKey.from_signature hb sig).map PublicKey.point = derive_public_key d := by
  unfold ecdsa_sign at hs
  split at hs
  · exact absurd hs (by simp)
  · split at hs
    · exact absurd hs (by simp)
    · split at hs
      · exact absurd hs (by simp)
      · split at hs
        · rename_i i hi
          have hrec := findRecid_spec _ _ _ _ _ hi
          cases hs
          refine ⟨i, rfl, hrec, ?_⟩
          intro hb hhb
          unfold PublicKey.from_signature
          dsimp only
          rw [hhb, hrec]
          cases hD : derive_public_key d with
          | none => rfl
          | some p => rfl
        · exact absurd hs (by simp)

set_option maxRecDepth 200000 in
set_option maxHeartbeats 4000000 in
/-- C7 witness: public-key recovery applied to the signature produced for the
fixture message by the first fixture key returns that key's public point. -/
theorem claim_C7_witness :
    (PublicKey.from_signature (dhash (bitcoinMessage fixtureMessage))
      (Signature.mk
        0x56b179af8875c1d774b1fa98ee512cb169c1f2c7ab469e0a2a36201927b463eb
        0x0582ae2f26d606817f6548afc75efda86514f7fd64bfd18d0fdb0bbec481973c
        (some 0))).map PublicKey.point =
      derive_public_key 0x6977b0281ced7fe1abc59fb3a47df963aeda102ce1027f25bcf5470a61b59f57 := by
  obtain ⟨i, hi, hrec, hall⟩ := claim_C7_recover_of_sign
    0x7c8d67593e9d6e205aaebe198ce1c65d9e54f10a9a13001ac8bb9f6edfacad55
    0x6977b0281ced7fe1abc59fb3a47df963aeda102ce1027f25bcf5470a61b59f57
    kmnonce
    (Signature.mk
      0x56b179af8875c1d774b1fa98ee512cb169c1f2c7ab469e0a2a36201927b463eb
      0x0582ae2f26d606817f6548afc75efda86514f7fd64bfd18d0fdb0bbec481973c
      (some 0)) (by decide!)
  exact hall (dhash (bitcoinMessage fixtureMessage)) (by decide!)

theorem mapIdxFrom_length {α : Type} (f : Nat → α → α) (k : Nat) (l : List α) :
    (mapIdxFrom f k l).length = l.length := by
  induction l generalizing k with
  | nil => rfl
  | cons x xs ih => simp [mapIdxFrom, ih]

theorem mapIdxFrom_getElem? {α : Type} (f : Nat → α → α) (k : Nat) (l : List α) (j : Nat) :
    (mapIdxFrom f k l)[j]? = (l[j]?).map (f (k + j)) := by
  induction l generalizing k j with
  | nil => simp [mapIdxFrom]
  | cons x xs ih =>
    cases j with
    | zero => simp [mapIdxFrom]
    | succ j =>
      simp only [mapIdxFrom, List.getElem?_cons_succ, ih (k + 1) j]
      have : k + 1 + j = k + (j + 1) := by omega
      rw [this]

/-- C4: the signature hash is the double-hash of the serialization of the
transformed copy of the transaction followed by the 4-byte little-endian
sighash type, where the transformed copy preserves version, outputs (sign-all
mode includes every output unmodified) and lock-time, and replaces every
input's unlocking script with the empty script except the input at the
signed index, which receives the previous locking script. -/
theorem claim_C4_signature_hash (t : Transaction) (idx sh : Nat) (sub : Script) :
    t.compute_signature_hash idx sh sub =
      dhash ((t.sigHashCopy idx sub).serialize ++ pack_u32 sh) ∧
    (t.sigHashCopy idx sub).version = t.version ∧
    (t.sigHashCopy idx sub).outputs = t.outputs ∧
    (t.sigHashCopy idx sub).lock_time = t.lock_time ∧
    (t.sigHashCopy idx sub).inputs.length = t.inputs.length ∧
    ∀ j, j < t.inputs.length →
      (t.sigHashCopy idx sub).inputs[j]? =
        (t.inputs[j]?).map fun inp =>
          { inp with script := if j = idx then sub else [] } := by
  refine ⟨rfl, rfl, rfl, rfl, mapIdxFrom_length _ _ _, ?_⟩
  intro j hj
  show (mapIdxFrom _ 0 t.inputs)[j]? = _
  rw [mapIdxFrom_getElem?]
  have h0 : 0 + j = j := by omega
  rw [h0]
  cases hx : t.inputs[j]? with
  | none => rfl
  | some inp =>
    simp only [Option.map]
    by_cases hji : j = idx
    · rw [if_pos hji]
      rw [if_pos hji]
    · rw [if_neg hji]
      rw [if_neg hji]

/-- C4 witness: the transform applied to the fixture transaction at input 0
substitutes the previous locking script into input 0. -/
theorem claim_C4_signature_hash_witness :
    (fixtureTxn.sigHashCopy 0 prev_script_pub_key).inputs[0]? =
      (fixtureTxn.inputs[0]?).map fun inp =>
        { inp with script := if 0 = 0 then prev_script_pub_key else [] } :=
  (claim_C4_signature_hash fixtureTxn 0 Transaction.SIG_HASH_ALL
    prev_script_pub_key).2.2.2.2.2 0 (by decide)

theorem hexVal_getD (v : Nat) (hv : v < 16) : hexVal (hexChars.getD v '0') = some v := by
  interval_cases v <;> decide

theorem toList_mk (l : List Char) : (String.mk l).toList = l := rfl

/-- Hex rendering round-trips back through parsing for genuine byte lists. -/
theorem hexToBytes_bytes_to_str (bs : List Nat) (hb : ∀ b ∈ bs, b < 256) :
    hexToBytes (bytes_to_str bs).toList = some bs := by
  unfold bytes_to_str
  rw [toList_mk]
  induction bs with
  | nil => rfl
  | cons b rest ih =>
    have hblt : b < 256 := hb b (by simp)
    have ihh := ih (fun x hx => hb x (by simp [hx]))
    simp only [List.foldr_cons]
    unfold hexToBytes
    rw [hexVal_getD (b / 16) (by omega), hexVal_getD (b % 16) (by omega)]
    rw [ihh]
    show some ((b / 16 * 16 + b % 16) :: rest) = some (b :: rest)
    have : b / 16 * 16 + b % 16 = b := by omega
    rw [this]

/-- Any element of a list occurs contiguously inside the concatenation of the
serialized pieces. -/
theorem foldr_append_contains {α : Type} (g : α → List Nat) (l : List α) (j : Nat) (x : α)
    (hx : l[j]? = some x) :
    ∃ pre post, (l.map g).foldr (· ++ ·) [] = pre ++ g x ++ post := by
  induction l generalizing j with
  | nil => simp at hx
  | cons y ys ih =>
    cases j with
    | zero =>
      simp only [List.getElem?_cons_zero, Option.some.injEq] at hx
      exact ⟨[], (ys.map g).foldr (· ++ ·) [], by simp [hx]⟩
    | succ j =>
      simp only [List.getElem?_cons_succ] at hx
      obtain ⟨pre, post, hpp⟩ := ih j hx
      exact ⟨g y ++ pre, post, by simp [hpp, List.append_assoc]⟩

set_option maxRecDepth 200000 in
set_option maxHeartbeats 4000000 in
/-- C5: each input's previous transaction hash is emitted in the binary
serialization as its 32 stored bytes, contiguously; and the stored and
transmitted order is the byte-reversal of the commonly displayed hexadecimal
form (parsing the displayed hex and reversing recovers the emitted bytes).
Concretely, the displayed form of the signed fixture transaction's own hash
is the transaction id recorded in the test's block-explorer link, and the
displayed form of the fixture input's previous hash is the byte-reversal of
the hex string recorded in the test. -/
theorem claim_C5_reversed_hash :
    (∀ t : Transaction, ∀ j : Nat, ∀ inp : TransactionInput, t.inputs[j]? = some inp →
       ∃ pre post, t.serialize = pre ++ inp.outpoint ++ post) ∧
    (∀ stored : List Nat, (∀ b ∈ stored, b < 256) →
       (hexToBytes (displayedHashHex stored).toList).map List.reverse = some stored) ∧
    displayedHashHex (dhash ((signedTxn.getD fixtureTxn).serialize)) = fixtureTxidHex ∧
    displayedHashHex prev_txn_hash =
      "6eae1e03964799c4e29039db459ea4fad4df57c2b06f730b60032a48fb075620" := by
  refine ⟨?_, ?_, by decide!, by decide!⟩
  · intro t j inp hinp
    obtain ⟨pre, post, hpp⟩ := foldr_append_contains serializeInput t.inputs j inp hinp
    unfold Transaction.serialize
    rw [hpp]
    unfold serializeInput
    exact ⟨pack_u32 t.version ++ packCompact t.inputs.length ++ pre,
      pack_u32 inp.outpoint_index ++ scriptLP inp.script ++ pack_u32 inp.sequence_num ++
        post ++ packCompact t.outputs.length ++
        (t.outputs.map serializeOutput).foldr (· ++ ·) [] ++ pack_u32 t.lock_time,
      by simp only [List.append_assoc]⟩
  · intro stored hbs
    unfold displayedHashHex
    rw [hexToBytes_bytes_to_str stored.reverse (by intro b hbm; exact hbs b (List.mem_reverse.mp hbm))]
    simp

/-- C5 witness: the general clauses applied to the fixture transaction's
input 0 and a concrete byte list. -/
theorem claim_C5_reversed_hash_witness :
    (fixtureTxn.inputs[0]? = some fixture_txn_input ∧
      ∃ pre post, fixtureTxn.serialize = pre ++ fixture_txn_input.outpoint ++ post) ∧
    (hexToBytes (displayedHashHex [171, 1]).toList).map List.reverse = some [171, 1] :=
  ⟨⟨by decide!, claim_C5_reversed_hash.1 fixtureTxn 0 fixture_txn_input (by decide!)⟩,
   claim_C5_reversed_hash.2.1 [171, 1] (by decide)⟩

/-! ### Base58 and WIF round-trip (claim C8) -/

theorem natDigitsAux_append (b : Nat) (f n : Nat) (acc : List Nat) :
    natDigitsAux b f n acc = natDigits b f n ++ acc := by
  induction f generalizing n acc with
  | zero => rfl
  | succ f ih =>
    have h1 : natDigitsAux b (f + 1) n acc =
        if n = 0 then acc else natDigitsAux b f (n / b) (n % b :: acc) := rfl
    have h2 : natDigits b (f + 1) n =
        if n = 0 then [] else natDigitsAux b f (n / b) (n % b :: []) := rfl
    rw [h1, h2]
    by_cases h : n = 0
    · simp [h]
    · rw [if_neg h, if_neg h, ih, ih (n / b) [n % b], List.append_assoc]
      rfl

theorem radixVal_append (b : Nat) (l : List Nat) (d : Nat) (acc : Nat) :
    radixVal b (l ++ [d]) acc = radixVal b l acc * b + d := by
  induction l generalizing acc with
  | nil => rfl
  | cons x xs ih =>
    show radixVal b (xs ++ [d]) (acc * b + x) = radixVal b xs (acc * b + x) * b + d
    exact ih (acc * b + x)

theorem radixVal_lt (b : Nat) (l : List Nat) (acc : Nat) (hb : 0 < b)
    (hl : ∀ d ∈ l, d < b) : radixVal b l acc < (acc + 1) * b ^ l.length := by
  induction l generalizing acc with
  | nil => simpa [radixVal] using Nat.lt_succ_self acc
  | cons x xs ih =>
    have hx : x < b := hl x (by simp)
    have h := ih (acc * b + x) (fun d hd => hl d (by simp [hd]))
    calc radixVal b (x :: xs) acc = radixVal b xs (acc * b + x) := rfl
    _ < (acc * b + x + 1) * b ^ xs.length := h
    _ ≤ ((acc + 1) * b) * b ^ xs.length := by
        have : acc * b + x + 1 ≤ (acc + 1) * b := by nlinarith
        exact Nat.mul_le_mul_right _ this
    _ = (acc + 1) * b ^ (x :: xs).length := by
        simp only [List.length_cons, Nat.pow_succ]
        ring

theorem radixVal_ge (b : Nat) (l : List Nat) (acc : Nat) :
    acc * b ^ l.length ≤ radixVal b l acc := by
  induction l generalizing acc with
  | nil => simp [radixVal]
  | cons x xs ih =>
    calc acc * b ^ (x :: xs).length = (acc * b) * b ^ xs.length := by
          simp only [List.length_cons, Nat.pow_succ]
          ring
    _ ≤ (acc * b + x) * b ^ xs.length := Nat.mul_le_mul_right _ (Nat.le_add_right _ _)
    _ ≤ radixVal b xs (acc * b + x) := ih (acc * b + x)
    _ = radixVal b (x :: xs) acc := rfl

theorem radixValue_lt (b : Nat) (l : List Nat) (hb : 0 < b) (hl : ∀ d ∈ l, d < b) :
    radixValue b l < b ^ l.length := by
  have h := radixVal_lt b l 0 hb hl
  simpa [radixValue] using h

theorem radixValue_pos_of_head (b : Nat) (hb : 0 < b) (x : Nat) (xs : List Nat)
    (hx : x ≠ 0) : 0 < radixValue b (x :: xs) := by
  have hge := radixVal_ge b xs (0 * b + x)
  have hpos : 0 < b ^ xs.length := Nat.pos_pow_of_pos _ hb
  calc 0 < x * b ^ xs.length := Nat.mul_pos (Nat.pos_of_ne_zero hx) hpos
  _ = (0 * b + x) * b ^ xs.length := by ring_nf
  _ ≤ radixVal b xs (0 * b + x) := hge
  _ = radixValue b (x :: xs) := rfl

theorem natDigits_zero (b f : Nat) : natDigits b f 0 = [] := by
  cases f <;> rfl

theorem natDigits_succ (b f n : Nat) (hn : n ≠ 0) :
    natDigits b (f + 1) n = natDigits b f (n / b) ++ [n % b] := by
  have h1 : natDigits b (f + 1) n =
      if n = 0 then [] else natDigitsAux b f (n / b) (n % b :: []) := rfl
  rw [h1, if_neg hn, natDigitsAux_append]

theorem natDigits_val (b : Nat) (hb : 2 ≤ b) (f n : Nat) (hn : n < b ^ f) :
    radixValue b (natDigits b f n) = n := by
  induction f generalizing n with
  | zero =>
    have h0 : n = 0 := by simpa [Nat.lt_one_iff] using hn
    simp [h0, natDigits_zero, radixValue, radixVal]
  | succ f ih =>
    by_cases h : n = 0
    · simp [h, natDigits_zero, radixValue, radixVal]
    · rw [natDigits_succ b f n h]
      unfold radixValue
      rw [radixVal_append]
      have hdiv : n / b < b ^ f := by
        rw [Nat.div_lt_iff_lt_mul (by omega)]
        calc n < b ^ (f + 1) := hn
        _ = b ^ f * b := by rw [Nat.pow_succ]
      rw [show radixVal b (natDigits b f (n / b)) 0 = radixValue b (natDigits b f (n / b)) from rfl,
        ih (n / b) hdiv]
      rw [Nat.mul_comm]
      exact Nat.div_add_mod n b

theorem natDigits_digit_lt (b : Nat) (hb : 0 < b) (f n : Nat) :
    ∀ d ∈ natDigits b f n, d < b := by
  induction f generalizing n with
  | zero => intro d hd; simp [natDigits, natDigitsAux] at hd
  | succ f ih =>
    intro d hd
    by_cases h : n = 0
    · rw [h, natDigits_zero] at hd; simp at hd
    · rw [natDigits_succ b f n h] at hd
      rcases List.mem_append.mp hd with h1 | h2
      · exact ih (n / b) d h1
      · simp only [List.mem_singleton] at h2
        subst h2
        exact Nat.mod_lt _ hb

theorem natDigits_head (b : Nat) (hb : 2 ≤ b) (f n : Nat) (hn : n < b ^ f) (h0 : n ≠ 0) :
    (natDigits b f n).head? ≠ some 0 := by
  induction f generalizing n with
  | zero =>
    have : n = 0 := by simpa [Nat.lt_one_iff] using hn
    exact absurd this h0
  | succ f ih =>
    rw [natDigits_succ b f n h0]
    by_cases h : n / b = 0
    · rw [h, natDigits_zero]
      have hnb : n < b := by
        by_contra hlt
        push_neg at hlt
        have := Nat.div_pos hlt (by omega)
        omega
      have : n % b = n := Nat.mod_eq_of_lt hnb
      simp [this, h0]
    · have hdiv : n / b < b ^ f := by
        rw [Nat.div_lt_iff_lt_mul (by omega)]
        calc n < b ^ (f + 1) := hn
        _ = b ^ f * b := by rw [Nat.pow_succ]
      have hh := ih (n / b) hdiv h
      cases hds : natDigits b f (n / b) with
      | nil =>
        exfalso
        have hv := natDigits_val b hb f (n / b) hdiv
        rw [hds] at hv
        simp [radixValue, radixVal] at hv
        exact h hv.symm
      | cons x xs =>
        rw [hds] at hh
        simpa using hh

theorem natDigits_len_le (b f n : Nat) : (natDigits b f n).length ≤ f := by
  induction f generalizing n with
  | zero => simp [natDigits, natDigitsAux]
  | succ f ih =>
    by_cases h : n = 0
    · simp [h, natDigits_zero]
    · rw [natDigits_succ b f n h]
      simp only [List.length_append, List.length_cons, List.length_nil]
      have := ih (n / b)
      omega

theorem natDigits_canon_roundtrip (b : Nat) (hb : 2 ≤ b) (ds : List Nat) (f : Nat)
    (hlt : ∀ d ∈ ds, d < b) (hhd : ds.head? ≠ some 0) (hf : ds.length ≤ f) :
    natDigits b f (radixValue b ds) = ds := by
  induction ds using List.reverseRecOn generalizing f with
  | nil => simp [radixValue, radixVal, natDigits_zero]
  | append_singleton init d ih =>
    have hd : d < b := hlt d (by simp)
    have hval : radixValue b (init ++ [d]) = radixValue b init * b + d := by
      unfold radixValue
      rw [radixVal_append]
    by_cases hz : radixValue b (init ++ [d]) = 0
    · exfalso
      rw [hval] at hz
      have hi0 : radixValue b init = 0 ∧ d = 0 := by
        constructor <;> nlinarith
      cases init with
      | nil => simp [hi0.2] at hhd
      | cons x xs =>
        have hx0 : x ≠ 0 := by simpa using hhd
        have := radixValue_pos_of_head b (by omega) x xs hx0
        omega
    · cases f with
      | zero => simp at hf
      | succ f =>
        rw [natDigits_succ b f _ hz, hval]
        have hq : (radixValue b init * b + d) / b = radixValue b init := by
          rw [Nat.mul_comm, Nat.mul_add_div (by omega : 0 < b), Nat.div_eq_of_lt hd]
          omega
        have hr : (radixValue b init * b + d) % b = d := by
          rw [Nat.mul_comm, Nat.mul_add_mod]
          exact Nat.mod_eq_of_lt hd
        rw [hq, hr]
        have hinit : natDigits b f (radixValue b init) = init := by
          apply ih f (fun x hx => hlt x (by simp [hx])) ?_ ?_
          · cases init with
            | nil => simp
            | cons x xs =>
              have hcons : (x :: (xs ++ [d])).head? ≠ some 0 := hhd
              simpa using hcons
          · have hlen : (init ++ [d]).length ≤ f + 1 := hf
            simp at hlen
            omega
        rw [hinit]

theorem countLeading_le (v : Nat) (l : List Nat) : countLeading v l ≤ l.length := by
  induction l with
  | nil => simp [countLeading]
  | cons x xs ih =>
    unfold countLeading
    by_cases h : x = v
    · rw [if_pos h]; simpa using ih
    · rw [if_neg h]; simp

theorem countLeading_decomp (v : Nat) (l : List Nat) :
    l = List.replicate (countLeading v l) v ++ l.drop (countLeading v l) := by
  induction l with
  | nil => rfl
  | cons x xs ih =>
    unfold countLeading
    by_cases h : x = v
    · rw [if_pos h]
      simp only [List.replicate_succ, List.cons_append, List.drop_succ_cons]
      rw [h]
      exact congrArg (v :: ·) ih
    · rw [if_neg h]
      simp

theorem countLeading_drop_head (v : Nat) (l : List Nat) :
    (l.drop (countLeading v l)).head? ≠ some v := by
  induction l with
  | nil => simp
  | cons x xs ih =>
    unfold countLeading
    by_cases h : x = v
    · rw [if_pos h]
      simpa using ih
    · rw [if_neg h]
      simpa using h

theorem countLeading_replicate_append (v : Nat) (z : Nat) (t : List Nat)
    (ht : t.head? ≠ some v) : countLeading v (List.replicate z v ++ t) = z := by
  induction z with
  | zero =>
    simp only [List.replicate_zero, List.nil_append]
    cases t with
    | nil => rfl
    | cons x xs =>
      unfold countLeading
      rw [if_neg (by simpa using ht)]
  | succ z ih =>
    simp only [List.replicate_succ, List.cons_append]
    unfold countLeading
    rw [if_pos rfl, ih]

theorem radixValue_replicate_zero (b z : Nat) (t : List Nat) :
    radixValue b (List.replicate z 0 ++ t) = radixValue b t := by
  induction z with
  | zero => rfl
  | succ z ih =>
    show radixVal b (List.replicate z 0 ++ t) (0 * b + 0) = radixValue b t
    rw [show 0 * b + 0 = 0 from by omega]
    exact ih

theorem lookupAux_spec (cs : List Char) (i : Nat) (c : Char) (v : Nat)
    (h : lookupAux cs i c = some v) :
    i ≤ v ∧ v - i < cs.length ∧ cs.getD (v - i) '1' = c := by
  induction cs generalizing i with
  | nil => simp [lookupAux] at h
  | cons a rest ih =>
    unfold lookupAux at h
    by_cases hc : c = a
    · rw [if_pos hc] at h
      obtain rfl : i = v := by simpa using h
      simp [hc]
    · rw [if_neg hc] at h
      obtain ⟨h1, h2, h3⟩ := ih (i + 1) h
      refine ⟨by omega, ?_, ?_⟩
      · simp only [List.length_cons]
        omega
      · have : v - i = (v - (i + 1)) + 1 := by omega
        rw [this]
        simpa using h3

theorem b58Index_spec (c : Char) (v : Nat) (h : b58Index c = some v) :
    v < 58 ∧ b58Char v = c := by
  obtain ⟨h1, h2, h3⟩ := lookupAux_spec _ 0 c v h
  have hlen : b58String.toList.length = 58 := by decide
  constructor
  · omega
  · unfold b58Char
    rw [show v = v - 0 from by omega]
    exact h3

theorem b58Digits_spec (l : List Char) (ds : List Nat) (h : b58Digits l = some ds) :
    ds.length = l.length ∧ l = ds.map b58Char ∧ ∀ d ∈ ds, d < 58 := by
  induction l generalizing ds with
  | nil =>
    obtain rfl : ds = [] := by simpa [b58Digits] using h.symm
    simp
  | cons c cs ih =>
    unfold b58Digits at h
    cases hi : b58Index c with
    | none => rw [hi] at h; simp at h
    | some v =>
      rw [hi] at h
      cases hds : b58Digits cs with
      | none => rw [hds] at h; simp at h
      | some vs =>
        rw [hds] at h
        obtain rfl : v :: vs = ds := by simpa using h
        obtain ⟨l1, l2, l3⟩ := ih vs hds
        obtain ⟨hv, hchar⟩ := b58Index_spec c v hi
        refine ⟨by simp [l1], ?_, ?_⟩
        · simp only [List.map_cons, hchar, ← l2]
        · intro d hd
          rcases List.mem_cons.mp hd with rfl | hmem
          · exact hv
          · exact l3 d hmem

theorem string_mk_toList (s : String) : String.mk s.toList = s := rfl

theorem b58Char_zero : b58Char 0 = '1' := by decide

theorem b58decodeBytes_lt (s : String) (raw : List Nat) (h : b58decodeBytes s = some raw) :
    ∀ x ∈ raw, x < 256 := by
  unfold b58decodeBytes at h
  cases hds : b58Digits s.toList with
  | none => rw [hds] at h; simp at h
  | some ds =>
    rw [hds] at h
    simp only [Option.map_some'] at h
    replace h := Option.some.inj h
    intro x hx
    rw [← h] at hx
    rcases List.mem_append.mp hx with h1 | h2
    · have := List.eq_of_mem_replicate h1
      omega
    · exact natDigits_digit_lt 256 (by omega) _ _ x h2

theorem b58decodeBytes_encode (s : String) (raw : List Nat)
    (h : b58decodeBytes s = some raw) : b58encodeBytes raw = s := by
  unfold b58decodeBytes at h
  cases hds : b58Digits s.toList with
  | none => rw [hds] at h; simp at h
  | some ds =>
    rw [hds] at h
    simp only [Option.map_some'] at h
    replace h := Option.some.inj h
    obtain ⟨hlen, hmap, hd58⟩ := b58Digits_spec _ _ hds
    set z := countLeading 0 ds with hz
    set ds' := ds.drop z with hds'
    have hdecomp : ds = List.replicate z 0 ++ ds' := countLeading_decomp 0 ds
    have hd'head : ds'.head? ≠ some 0 := countLeading_drop_head 0 ds
    have hd'58 : ∀ d ∈ ds', d < 58 := fun d hd => hd58 d (List.mem_of_mem_drop hd)
    set v := radixValue 58 ds with hv
    have hvds' : v = radixValue 58 ds' := by
      rw [hv, hdecomp, radixValue_replicate_zero]
    have hvlt : v < 58 ^ ds'.length := hvds' ▸ radixValue_lt 58 ds' (by omega) hd'58
    have hdslen : ds.length = z + ds'.length := by
      rw [hdecomp]
      simp
    have hvlt256 : v < 256 ^ ds.length := by
      calc v < 58 ^ ds'.length := hvlt
      _ ≤ 58 ^ ds.length := Nat.pow_le_pow_right (by omega) (by omega)
      _ ≤ 256 ^ ds.length := Nat.pow_le_pow_left (by omega) _
    set bs := natDigits 256 ds.length v with hbs
    have hraw : raw = List.replicate z 0 ++ bs := h.symm
    have hbsval : radixValue 256 bs = v := natDigits_val 256 (by omega) _ _ hvlt256
    have hbshead : bs.head? ≠ some 0 := by
      by_cases hv0 : v = 0
      · rw [hbs, hv0, natDigits_zero]
        simp
      · exact natDigits_head 256 (by omega) _ _ hvlt256 hv0
    have hbs256 : ∀ d ∈ bs, d < 256 := natDigits_digit_lt 256 (by omega) _ _
    -- leading-zero count of raw
    have hclraw : countLeading 0 raw = z := by
      rw [hraw]
      exact countLeading_replicate_append 0 z bs hbshead
    -- value of raw
    have hrawval : bytesToNatBE raw = v := by
      rw [hraw]
      unfold bytesToNatBE
      rw [radixValue_replicate_zero]
      exact hbsval
    -- fuel sufficiency for the base-58 digits
    have hfuel : ds'.length ≤ 2 * raw.length := by
      by_cases hnil : ds' = []
      · simp [hnil]
      · obtain ⟨x, t, hxt⟩ := List.exists_cons_of_ne_nil hnil
        have hx0 : x ≠ 0 := by
          rw [hxt] at hd'head
          simpa using hd'head
        have hvge : 58 ^ t.length ≤ v := by
          rw [hvds', hxt]
          calc 58 ^ t.length = 1 * 58 ^ t.length := by omega
          _ ≤ x * 58 ^ t.length := Nat.mul_le_mul_right _ (by omega)
          _ = (0 * 58 + x) * 58 ^ t.length := by ring_nf
          _ ≤ radixVal 58 t (0 * 58 + x) := radixVal_ge 58 t _
          _ = radixValue 58 (x :: t) := rfl
        have hbslt : v < 256 ^ bs.length := by
          rw [← hbsval]
          exact radixValue_lt 256 bs (by omega) hbs256
        have hlb : t.length < 2 * bs.length := by
          by_contra hcon
          push_neg at hcon
          have h16 : (256 : Nat) ^ bs.length = 16 ^ (2 * bs.length) := by
            rw [Nat.pow_mul]
          have : v < 16 ^ (2 * bs.length) := h16 ▸ hbslt
          have h2 : (16 : Nat) ^ (2 * bs.length) ≤ 16 ^ t.length :=
            Nat.pow_le_pow_right (by omega) hcon
          have h3 : (16 : Nat) ^ t.length ≤ 58 ^ t.length :=
            Nat.pow_le_pow_left (by omega) _
          omega
        have hrawlen : raw.length = z + bs.length := by
          rw [hraw]
          simp
        rw [hxt]
        simp only [List.length_cons]
        omega
    have hdigits58 : natDigits 58 (2 * raw.length) v = ds' := by
      rw [hvds']
      exact natDigits_canon_roundtrip 58 (by omega) ds' _ hd'58 hd'head hfuel
    -- assemble
    unfold b58encodeBytes
    rw [hclraw, hrawval, hdigits58]
    have hchars : s.toList = List.replicate z '1' ++ ds'.map b58Char := by
      rw [hmap, hdecomp]
      simp only [List.map_append, List.map_replicate, b58Char_zero]
    rw [← hchars]
    exact string_mk_toList s

theorem b58decode_check_spec (s : String) (payload : List Nat)
    (h : b58decode_check s = Except.ok payload) :
    ∃ raw, b58decodeBytes s = some raw ∧ payload = raw.take (raw.length - 4) ∧
      (dhash payload).take 4 = raw.drop (raw.length - 4) := by
  unfold b58decode_check at h
  cases hraw : b58decodeBytes s with
  | none => rw [hraw] at h; simp at h
  | some raw =>
    rw [hraw] at h
    have h' : (if (dhash (raw.take (raw.length - 4))).take 4 = raw.drop (raw.length - 4)
        then (Except.ok (raw.take (raw.length - 4)) : Except B58Err (List Nat))
        else Except.error B58Err.badChecksum) = Except.ok payload := h
    by_cases hc : (dhash (raw.take (raw.length - 4))).take 4 = raw.drop (raw.length - 4)
    · rw [if_pos hc] at h'
      have hpz := (Except.ok.inj h').symm
      exact ⟨raw, rfl, hpz, by rw [hpz]; exact hc⟩
    · rw [if_neg hc] at h'
      simp at h'

theorem b58encode_check_decode (s : String) (payload : List Nat)
    (h : b58decode_check s = Except.ok payload) : b58encode_check payload = s := by
  obtain ⟨raw, hraw, hp, hc⟩ := b58decode_check_spec s payload h
  unfold b58encode_check
  rw [hc, hp, List.take_append_drop]
  exact b58decodeBytes_encode s raw hraw

theorem b58decode_check_lt (s : String) (payload : List Nat)
    (h : b58decode_check s = Except.ok payload) : ∀ x ∈ payload, x < 256 := by
  obtain ⟨raw, hraw, hp, _⟩ := b58decode_check_spec s payload h
  intro x hx
  rw [hp] at hx
  exact b58decodeBytes_lt s raw hraw x (List.mem_of_mem_take hx)

theorem bytesBE_roundtrip (bs : List Nat) (hbs : ∀ x ∈ bs, x < 256) :
    natBytesBEPad bs.length (bytesToNatBE bs) = bs := by
  set z := countLeading 0 bs with hz
  set bs' := bs.drop z with hbs'
  have hdecomp : bs = List.replicate z 0 ++ bs' := countLeading_decomp 0 bs
  have hhead : bs'.head? ≠ some 0 := countLeading_drop_head 0 bs
  have hlt : ∀ x ∈ bs', x < 256 := fun x hx => hbs x (List.mem_of_mem_drop hx)
  have hval : bytesToNatBE bs = radixValue 256 bs' := by
    unfold bytesToNatBE
    rw [hdecomp, radixValue_replicate_zero]
  have hlen : bs.length = z + bs'.length := by rw [hdecomp]; simp
  have hdig : natDigits 256 bs.length (bytesToNatBE bs) = bs' := by
    rw [hval]
    exact natDigits_canon_roundtrip 256 (by omega) bs' _ hlt hhead (by omega)
  show List.replicate (bs.length - (natDigits 256 bs.length (bytesToNatBE bs)).length) 0 ++
    natDigits 256 bs.length (bytesToNatBE bs) = bs
  rw [hdig]
  have hlz : bs.length - bs'.length = z := by omega
  rw [hlz, ← hdecomp]

theorem wif_roundtrip (s : String) (key : PrivateKey)
    (h : PrivateKey.from_b58check s = some key) : key.to_b58check = s := by
  unfold PrivateKey.from_b58check at h
  cases hdec : b58decode_check s with
  | error e => rw [hdec] at h; simp at h
  | ok payload =>
    rw [hdec] at h
    have hlt : ∀ x ∈ payload, x < 256 := b58decode_check_lt s payload hdec
    match payload, hlt, h with
    | 128 :: rest, hlt, h =>
      have hrlt : ∀ x ∈ rest, x < 256 := fun x hx => hlt x (by simp [hx])
      have h : (if rest.length = 32 then some (⟨bytesToNatBE rest, false⟩ : PrivateKey)
          else if rest.length = 33 ∧ rest.getLast? = some 1 then
            some (⟨bytesToNatBE (rest.take 32), true⟩ : PrivateKey)
          else none) = some key := h
      by_cases h32 : rest.length = 32
      · rw [if_pos h32] at h
        replace h := Option.some.inj h
        have hpad : natBytesBEPad 32 (bytesToNatBE rest) = rest := by
          rw [← h32]
          exact bytesBE_roundtrip rest hrlt
        unfold PrivateKey.to_b58check
        rw [← h]
        show b58encode_check (128 :: (natBytesBEPad 32 (bytesToNatBE rest) ++ [])) = s
        rw [hpad, List.append_nil]
        exact b58encode_check_decode s _ hdec
      · rw [if_neg h32] at h
        by_cases h33 : rest.length = 33 ∧ rest.getLast? = some 1
        · rw [if_pos h33] at h
          replace h := Option.some.inj h
          have htake : (rest.take 32).length = 32 := by
            rw [List.length_take]
            omega
          have hpad := bytesBE_roundtrip (rest.take 32)
            (fun x hx => hrlt x (List.mem_of_mem_take hx))
          rw [htake] at hpad
          have hdrop : rest.drop 32 = [1] := by
            have hld : (rest.drop 32).length = 1 := by
              rw [List.length_drop, h33.1]
            cases hd : rest.drop 32 with
            | nil => rw [hd] at hld; simp at hld
            | cons a t =>
              cases t with
              | nil =>
                have hlast : rest.getLast? = some a := by
                  have h1 : rest = rest.take 32 ++ [a] := by
                    conv_lhs => rw [← List.take_append_drop 32 rest]
                    rw [hd]
                  rw [h1]
                  simp
                rw [h33.2] at hlast
                obtain rfl : a = 1 := by simpa using hlast.symm
                rfl
              | cons b t2 =>
                rw [hd] at hld
                simp at hld
          have hrest : rest.take 32 ++ [1] = rest := by
            rw [← hdrop, List.take_append_drop]
          unfold PrivateKey.to_b58check
          rw [← h]
          show b58encode_check (128 :: (natBytesBEPad 32 (bytesToNatBE (rest.take 32)) ++ [1])) = s
          rw [hpad, hrest]
          exact b58encode_check_decode s _ hdec
        · rw [if_neg h33] at h
          simp at h

theorem b58Digits_set (l : List Char) (ds : List Nat) (i : Nat) (c : Char) (v : Nat)
    (h : b58Digits l = some ds) (hc : b58Index c = some v) :
    b58Digits (l.set i c) = some (ds.set i v) := by
  induction l generalizing i ds with
  | nil =>
    obtain rfl : ds = [] := by simpa [b58Digits] using h.symm
    simp [b58Digits]
  | cons a rest ih =>
    unfold b58Digits at h
    cases hi : b58Index a with
    | none => rw [hi] at h; simp at h
    | some w =>
      rw [hi] at h
      cases hds : b58Digits rest with
      | none => rw [hds] at h; simp at h
      | some ws =>
        rw [hds] at h
        obtain rfl : w :: ws = ds := by simpa using h
        cases i with
        | zero =>
          show b58Digits (c :: rest) = some (v :: ws)
          unfold b58Digits
          rw [hc, hds]
        | succ i =>
          show b58Digits (a :: rest.set i c) = some (w :: ws.set i v)
          unfold b58Digits
          rw [hi, ih ws i hds]

/-- C8: (1) every validly-encoded WIF string round-trips: re-encoding the
decoded private key reproduces the string exactly; (2) corrupting any single
character of a validly-checksummed base58 string to a different alphabet
character either makes decoding fail with a checksum-mismatch error, or
produces a decodable byte string, provably distinct from the original, whose
trailing four bytes nevertheless collide with the double-hash checksum of its
payload (the negligible-probability event behind "with overwhelming
probability"). -/
theorem claim_C8_wif_roundtrip :
    (∀ s : String, ∀ key : PrivateKey,
       PrivateKey.from_b58check s = some key → key.to_b58check = s) ∧
    (∀ s : String, ∀ payload : List Nat, ∀ i : Nat, ∀ c : Char,
       b58decode_check s = Except.ok payload →
       i < s.toList.length → (b58Index c).isSome → s.toList[i]? ≠ some c →
       b58decode_check (replaceAt s i c) = Except.error B58Err.badChecksum ∨
       ∃ raw raw', b58decodeBytes s = some raw ∧
         b58decodeBytes (replaceAt s i c) = some raw' ∧ raw' ≠ raw ∧
         (dhash (raw'.take (raw'.length - 4))).take 4 = raw'.drop (raw'.length - 4)) := by
  constructor
  · exact wif_roundtrip
  · intro s payload i c hdec hi hc hne
    obtain ⟨raw, hraw, hp, hcks⟩ := b58decode_check_spec s payload hdec
    obtain ⟨v, hv⟩ := Option.isSome_iff_exists.mp hc
    -- the corrupted string still decodes
    have hds : ∃ ds, b58Digits s.toList = some ds := by
      unfold b58decodeBytes at hraw
      cases hds : b58Digits s.toList with
      | none => rw [hds] at hraw; simp at hraw
      | some ds => exact ⟨ds, rfl⟩
    obtain ⟨ds, hds⟩ := hds
    have htl : (replaceAt s i c).toList = s.toList.set i c := rfl
    have hds' : b58Digits (replaceAt s i c).toList = some (ds.set i v) := by
      rw [htl]
      exact b58Digits_set _ _ i c v hds hv
    have hraw' : ∃ raw', b58decodeBytes (replaceAt s i c) = some raw' := by
      unfold b58decodeBytes
      rw [hds']
      exact ⟨_, rfl⟩
    obtain ⟨raw', hraw'⟩ := hraw'
    have hne' : raw' ≠ raw := by
      intro heq
      have e1 : b58encodeBytes raw = s := b58decodeBytes_encode s raw hraw
      have e2 : b58encodeBytes raw' = replaceAt s i c :=
        b58decodeBytes_encode _ raw' hraw'
      have hss : replaceAt s i c = s := by
        rw [← e2, heq, e1]
      have : (replaceAt s i c).toList[i]? = s.toList[i]? := by rw [hss]
      rw [htl, List.getElem?_set_eq_of_lt c hi] at this
      exact hne this.symm
    have hd : b58decode_check (replaceAt s i c) =
        if (dhash (raw'.take (raw'.length - 4))).take 4 = raw'.drop (raw'.length - 4)
        then Except.ok (raw'.take (raw'.length - 4)) else Except.error B58Err.badChecksum := by
      unfold b58decode_check
      rw [hraw']
    by_cases hchk : (dhash (raw'.take (raw'.length - 4))).take 4 = raw'.drop (raw'.length - 4)
    · right
      exact ⟨raw, raw', hraw, hraw', hne', hchk⟩
    · left
      rw [hd, if_neg hchk]

set_option maxRecDepth 200000 in
/-- C8 witness: the fixture WIF string round-trips through decode and encode,
and corrupting its first character to the alphabet character 6 is rejected. -/
theorem claim_C8_wif_roundtrip_witness :
    privkey1.to_b58check = wif1 ∧
    (b58decode_check (replaceAt wif1 0 '6') = Except.error B58Err.badChecksum ∨
     ∃ raw raw', b58decodeBytes wif1 = some raw ∧
       b58decodeBytes (replaceAt wif1 0 '6') = some raw' ∧ raw' ≠ raw ∧
       (dhash (raw'.take (raw'.length - 4))).take 4 = raw'.drop (raw'.length - 4)) :=
  ⟨claim_C8_wif_roundtrip.1 wif1 privkey1 (by decide!),
   claim_C8_wif_roundtrip.2 wif1 (128 :: natBytesBEPad 32 privkey1.d) 0 '6'
     (by decide!) (by decide) (by decide) (by decide)⟩

/-! ### ECDSA correctness (claim C6): primality certificates, refinement of the
Jacobian arithmetic to the secp256k1 group, and the verification equation -/

theorem powModAux_spec (f : Nat) (a e m : Nat) (hm : 0 < m) (ha : a < m) (he : e < 2 ^ f) :
    powModAux f a e m = a ^ e % m := by
  induction f generalizing a e with
  | zero =>
    have h0 : e = 0 := by simpa [Nat.lt_one_iff] using he
    simp [powModAux, h0]
  | succ f ih =>
    show (if e = 0 then 1 % m
      else
        let h := powModAux f (a * a % m) (e / 2) m
        if e % 2 = 1 then h * a % m else h) = a ^ e % m
    by_cases h0 : e = 0
    · simp [h0]
    · rw [if_neg h0]
      have hdiv : e / 2 < 2 ^ f := by
        have : e < 2 ^ f * 2 := by
          rw [← Nat.pow_succ]
          exact he
        omega
      have hrec := ih (a * a % m) (e / 2) (Nat.mod_lt _ hm) hdiv
      have hsq : (a * a % m) ^ (e / 2) % m = (a * a) ^ (e / 2) % m := by
        rw [Nat.pow_mod, Nat.mod_mod_of_dvd _ (dvd_refl m)]
        rw [← Nat.pow_mod]
      by_cases hpar : e % 2 = 1
      · rw [if_pos hpar]
        show powModAux f (a * a % m) (e / 2) m * a % m = a ^ e % m
        rw [hrec, hsq]
        conv_rhs => rw [show e = 2 * (e / 2) + 1 from by omega]
        rw [pow_succ, pow_mul, pow_two]
        rw [Nat.mod_mul_mod]
      · rw [if_neg hpar]
        show powModAux f (a * a % m) (e / 2) m = a ^ e % m
        rw [hrec, hsq]
        conv_rhs => rw [show e = 2 * (e / 2) from by omega]
        rw [pow_mul, pow_two]

theorem powMod_spec (a e m : Nat) (hm : 0 < m) (he : e < 2 ^ 256) :
    powMod a e m = a ^ e % m := by
  unfold powMod
  rw [powModAux_spec 256 (a % m) e m hm (Nat.mod_lt _ hm) he]
  rw [Nat.pow_mod, Nat.mod_mod_of_dvd _ (dvd_refl m), ← Nat.pow_mod]

theorem powMod_lt (a e m : Nat) (hm : 0 < m) (he : e < 2 ^ 256) :
    powMod a e m < m := by
  rw [powMod_spec a e m hm he]
  exact Nat.mod_lt _ hm

theorem powMod_cast (a e m : Nat) (hm : 0 < m) (he : e < 2 ^ 256) :
    ((powMod a e m : Nat) : ZMod m) = (a : ZMod m) ^ e := by
  rw [powMod_spec a e m hm he, ZMod.natCast_mod, Nat.cast_pow]

/-- One step of a Pratt certificate: `p` is prime if some `a` has full order
mod `p`, certified against a full factorization of `p - 1`. -/

theorem pratt_step (p a : Nat) (qs : List (Nat × Nat)) (hp2 : 2 ≤ p)
    (hsz : p - 1 < 2 ^ 256)
    (hprod : (qs.map fun q => q.1 ^ q.2).prod = p - 1)
    (hq : ∀ q ∈ qs, Nat.Prime q.1)
    (hpow : powMod a (p - 1) p = 1)
    (hdiv : ∀ q ∈ qs, powMod a ((p - 1) / q.1) p ≠ 1) :
    Nat.Prime p := by
  have hp0 : 0 < p := by omega
  have h1p : 1 % p = 1 := Nat.mod_eq_of_lt (by omega)
  apply lucas_primality p (a : ZMod p)
  · rw [← powMod_cast a (p - 1) p hp0 hsz, hpow]
    exact Nat.cast_one
  · intro q hqp hqd
    have hne : ((powMod a ((p - 1) / q) p : Nat) : ZMod p) ≠ ((1 : Nat) : ZMod p) := by
      intro heq
      have hlt1 : powMod a ((p - 1) / q) p < p :=
        powMod_lt a _ p hp0 (lt_of_le_of_lt (Nat.div_le_self _ _) hsz)
      have hlt2 : 1 < p := by omega
      have := ZMod.val_cast_of_lt hlt1
      have h2 := ZMod.val_cast_of_lt hlt2
      rw [heq] at this
      -- this : (1 : ZMod p).val²… combine
      have hv : powMod a ((p - 1) / q) p = 1 := by
        rw [← this, h2]
      -- find which q it is
      obtain ⟨⟨q', e'⟩, hmem, hdvd⟩ : ∃ x ∈ qs, q ∣ x.1 ^ x.2 := by
        have : q ∣ (qs.map fun x => x.1 ^ x.2).prod := hprod ▸ hqd
        obtain ⟨y, hy, hqy⟩ := (Nat.Prime.prime hqp).dvd_prod_iff.mp this
        obtain ⟨x, hx, rfl⟩ := List.mem_map.mp hy
        exact ⟨x, hx, hqy⟩
      have hq' : Nat.Prime q' := hq _ hmem
      have : q = q' := by
        have := (Nat.Prime.prime hqp).dvd_of_dvd_pow hdvd
        exact (Nat.prime_dvd_prime_iff_eq hqp hq').mp this
      subst this
      exact hdiv _ hmem hv
    rw [powMod_cast a ((p - 1) / q) p hp0
      (lt_of_le_of_lt (Nat.div_le_self _ _) hsz)] at hne
    simpa using hne

theorem pr_2 : Nat.Prime 2 := by norm_num

theorem pr_3 : Nat.Prime 3 := by norm_num

theorem pr_5 : Nat.Prime 5 := by norm_num

theorem pr_7 : Nat.Prime 7 := by norm_num

theorem pr_11 : Nat.Prime 11 := by norm_num

theorem pr_13 : Nat.Prime 13 := by norm_num

theorem pr_17 : Nat.Prime 17 := by norm_num

theorem pr_19 : Nat.Prime 19 := by norm_num

theorem pr_23 : Nat.Prime 23 := by norm_num

theorem pr_29 : Nat.Prime 29 := by norm_num

theorem pr_31 : Nat.Prime 31 := by norm_num

theorem pr_37 : Nat.Prime 37 := by norm_num

theorem pr_41 : Nat.Prime 41 := by norm_num

theorem pr_53 : Nat.Prime 53 := by norm_num

theorem pr_59 : Nat.Prime 59 := by norm_num

theorem pr_67 : Nat.Prime 67 := by norm_num

theorem pr_73 : Nat.Prime 73 := by norm_num

theorem pr_83 : Nat.Prime 83 := by norm_num

theorem pr_97 : Nat.Prime 97 := by norm_num

theorem pr_101 : Nat.Prime 101 := by norm_num

theorem pr_103 : Nat.Prime 103 := by norm_num

theorem pr_109 : Nat.Prime 109 := by norm_num

theorem pr_113 : Nat.Prime 113 := by norm_num

theorem pr_131 : Nat.Prime 131 := by norm_num

theorem pr_149 : Nat.Prime 149 := by norm_num

theorem pr_199 : Nat.Prime 199 := by norm_num

theorem pr_239 : Nat.Prime 239 := by norm_num

theorem pr_271 : Nat.Prime 271 := by norm_num

theorem pr_293 : Nat.Prime 293 := by norm_num

theorem pr_419 : Nat.Prime 419 := by norm_num

theorem pr_443 : Nat.Prime 443 := by norm_num

theorem pr_461 : Nat.Prime 461 := by norm_num

theorem pr_631 : Nat.Prime 631 := by norm_num

theorem pr_797 : Nat.Prime 797 := by norm_num

theorem pr_887 : Nat.Prime 887 := by norm_num

theorem pr_971 : Nat.Prime 971 := by norm_num

theorem pr_1373 : Nat.Prime 1373 := by norm_num

theorem pr_1409 : Nat.Prime 1409 := by norm_num

theorem pr_1627 : Nat.Prime 1627 := by norm_num

theorem pr_1871 : Nat.Prime 1871 := by norm_num

theorem pr_2011 : Nat.Prime 2011 := by norm_num

theorem pr_2621 : Nat.Prime 2621 := by norm_num

theorem pr_2657 : Nat.Prime 2657 := by norm_num

theorem pr_2731 : Nat.Prime 2731 := by norm_num

theorem pr_2861 : Nat.Prime 2861 := by norm_num

theorem pr_4051 : Nat.Prime 4051 := by norm_num

theorem pr_4423 : Nat.Prime 4423 := by norm_num

theorem pr_5323 : Nat.Prime 5323 := by norm_num

theorem pr_7723 : Nat.Prime 7723 := by norm_num

theorem pr_9349 : Nat.Prime 9349 := by norm_num

theorem pr_13441 : Nat.Prime 13441 := by norm_num

theorem pr_16699 : Nat.Prime 16699 := by norm_num

theorem pr_20113 : Nat.Prime 20113 := by norm_num

theorem pr_24809 : Nat.Prime 24809 := by norm_num

theorem pr_28181 : Nat.Prime 28181 := by norm_num

theorem pr_41201 : Nat.Prime 41201 := by norm_num

theorem pr_85831 : Nat.Prime 85831 := by norm_num

theorem pr_96557 : Nat.Prime 96557 := by norm_num

theorem pr_120233 : Nat.Prime 120233 := by norm_num

theorem pr_305873 : Nat.Prime 305873 := by norm_num

theorem pr_1206781 : Nat.Prime 1206781 := by
  apply pratt_step 1206781 10 [(2, 2), (3, 1), (5, 1), (20113, 1)]
  · omega
  · decide!
  · decide!
  · intro q hq
    fin_cases hq
    · exact pr_2
    · exact pr_3
    · exact pr_5
    · exact pr_20113
  · decide!
  · intro q hq
    fin_cases hq
    · decide!
    · decide!
    · decide!
    · decide!

theorem pr_1627771 : Nat.Prime 1627771 := by
  apply pratt_step 1627771 3 [(2, 1), (3, 1), (5, 1), (29, 1), (1871, 1)]
  · omega
  · decide!
  · decide!
  · intro q hq
    fin_cases hq
    · exact pr_2
    · exact pr_3
    · exact pr_5
    · exact pr_29
    · exact pr_1871
  · decide!
  · intro q hq
    fin_cases hq
    · decide!
    · decide!
    · decide!
    · decide!
    · decide!

theorem pr_4681609 : Nat.Prime 4681609 := by
  apply pratt_step 4681609 23 [(2, 3), (3, 1), (97, 1), (2011, 1)]
  · omega
  · decide!
  · decide!
  · intro q hq
    fin_cases hq
    · exact pr_2
    · exact pr_3
    · exact pr_97
    · exact pr_2011
  · decide!
  · intro q hq
    fin_cases hq
    · decide!
    · decide!
    · decide!
    · decide!

theorem pr_7240687 : Nat.Prime 7240687 := by
  apply pratt_step 7240687 3 [(2, 1), (3, 1), (1206781, 1)]
  · omega
  · decide!
  · decide!
  · intro q hq
    fin_cases hq
    · exact pr_2
    · exact pr_3
    · exact pr_1206781
  · decide!
  · intro q hq
    fin_cases hq
    · decide!
    · decide!
    · decide!

theorem pr_13331831 : Nat.Prime 13331831 := by
  apply pratt_step 13331831 13 [(2, 1), (5, 1), (971, 1), (1373, 1)]
  · omega
  · decide!
  · decide!
  · intro q hq
    fin_cases hq
    · exact pr_2
    · exact pr_5
    · exact pr_971
    · exact pr_1373
  · decide!
  · intro q hq
    fin_cases hq
    · decide!
    · decide!
    · decide!
    · decide!

theorem pr_44706919 : Nat.Prime 44706919 := by
  apply pratt_step 44706919 6 [(2, 1), (3, 1), (797, 1), (9349, 1)]
  · omega
  · decide!
  · decide!
  · intro q hq
    fin_cases hq
    · exact pr_2
    · exact pr_3
    · exact pr_797
    · exact pr_9349
  · decide!
  · intro q hq
    fin_cases hq
    · decide!
    · decide!
    · decide!
    · decide!

theorem pr_107590001 : Nat.Prime 107590001 := by
  apply pratt_step 107590001 3 [(2, 4), (5, 4), (7, 1), (29, 1), (53, 1)]
  · omega
  · decide!
  · decide!
  · intro q hq
    fin_cases hq
    · exact pr_2
    · exact pr_5
    · exact pr_7
    · exact pr_29
    · exact pr_53
  · decide!
  · intro q hq
    fin_cases hq
    · decide!
    · decide!
    · decide!
    · decide!
    · decide!

theorem pr_545358713 : Nat.Prime 545358713 := by
  apply pratt_step 545358713 5 [(2, 3), (41, 1), (59, 1), (28181, 1)]
  · omega
  · decide!
  · decide!
  · intro q hq
    fin_cases hq
    · exact pr_2
    · exact pr_41
    · exact pr_59
    · exact pr_28181
  · decide!
  · intro q hq
    fin_cases hq
    · decide!
    · decide!
    · decide!
    · decide!

theorem pr_297159362677 : Nat.Prime 297159362677 := by
  apply pratt_step 297159362677 2 [(2, 2), (3, 2), (11, 1), (461, 1), (1627771, 1)]
  · omega
  · decide!
  · decide!
  · intro q hq
    fin_cases hq
    · exact pr_2
    · exact pr_3
    · exact pr_11
    · exact pr_461
    · exact pr_1627771
  · decide!
  · intro q hq
    fin_cases hq
    · decide!
    · decide!
    · decide!
    · decide!
    · decide!

theorem pr_107361793816595537 : Nat.Prime 107361793816595537 := by
  apply pratt_step 107361793816595537 3 [(2, 4), (16699, 1), (85831, 1), (4681609, 1)]
  · omega
  · decide!
  · decide!
  · intro q hq
    fin_cases hq
    · exact pr_2
    · exact pr_16699
    · exact pr_85831
    · exact pr_4681609
  · decide!
  · intro q hq
    fin_cases hq
    · decide!
    · decide!
    · decide!
    · decide!

theorem pr_173378833005251801 : Nat.Prime 173378833005251801 := by
  apply pratt_step 173378833005251801 6 [(2, 3), (5, 2), (2621, 1), (24809, 1), (13331831, 1)]
  · omega
  · decide!
  · decide!
  · intro q hq
    fin_cases hq
    · exact pr_2
    · exact pr_5
    · exact pr_2621
    · exact pr_24809
    · exact pr_13331831
  · decide!
  · intro q hq
    fin_cases hq
    · decide!
    · decide!
    · decide!
    · decide!
    · decide!

theorem pr_174723607534414371449 : Nat.Prime 174723607534414371449 := by
  apply pratt_step 174723607534414371449 3 [(2, 3), (17, 1), (59, 1), (4051, 1), (120233, 1), (44706919, 1)]
  · omega
  · decide!
  · decide!
  · intro q hq
    fin_cases hq
    · exact pr_2
    · exact pr_17
    · exact pr_59
    · exact pr_4051
    · exact pr_120233
    · exact pr_44706919
  · decide!
  · intro q hq
    fin_cases hq
    · decide!
    · decide!
    · decide!
    · decide!
    · decide!
    · decide!

theorem pr_22149492674086928081353 : Nat.Prime 22149492674086928081353 := by
  apply pratt_step 22149492674086928081353 5 [(2, 3), (3, 1), (5323, 1), (173378833005251801, 1)]
  · omega
  · decide!
  · decide!
  · intro q hq
    fin_cases hq
    · exact pr_2
    · exact pr_3
    · exact pr_5323
    · exact pr_173378833005251801
  · decide!
  · intro q hq
    fin_cases hq
    · decide!
    · decide!
    · decide!
    · decide!

theorem pr_132896956044521568488119 : Nat.Prime 132896956044521568488119 := by
  apply pratt_step 132896956044521568488119 6 [(2, 1), (3, 1), (22149492674086928081353, 1)]
  · omega
  · decide!
  · decide!
  · intro q hq
    fin_cases hq
    · exact pr_2
    · exact pr_3
    · exact pr_22149492674086928081353
  · decide!
  · intro q hq
    fin_cases hq
    · decide!
    · decide!
    · decide!

theorem pr_29047611873442575647497758179 : Nat.Prime 29047611873442575647497758179 := by
  apply pratt_step 29047611873442575647497758179 2 [(2, 1), (293, 1), (305873, 1), (545358713, 1), (297159362677, 1)]
  · omega
  · decide!
  · decide!
  · intro q hq
    fin_cases hq
    · exact pr_2
    · exact pr_293
    · exact pr_305873
    · exact pr_545358713
    · exact pr_297159362677
  · decide!
  · intro q hq
    fin_cases hq
    · decide!
    · decide!
    · decide!
    · decide!
    · decide!

theorem pr_341948486974166000522343609283189 : Nat.Prime 341948486974166000522343609283189 := by
  apply pratt_step 341948486974166000522343609283189 2 [(2, 2), (3, 3), (109, 1), (29047611873442575647497758179, 1)]
  · omega
  · decide!
  · decide!
  · intro q hq
    fin_cases hq
    · exact pr_2
    · exact pr_3
    · exact pr_109
    · exact pr_29047611873442575647497758179
  · decide!
  · intro q hq
    fin_cases hq
    · decide!
    · decide!
    · decide!
    · decide!

theorem pr_255515944373312847190720520512484175977 : Nat.Prime 255515944373312847190720520512484175977 := by
  apply pratt_step 255515944373312847190720520512484175977 3 [(2, 3), (7, 2), (11, 1), (1627, 1), (2657, 1), (4423, 1), (41201, 1), (96557, 1), (7240687, 1), (107590001, 1)]
  · omega
  · decide!
  · decide!
  · intro q hq
    fin_cases hq
    · exact pr_2
    · exact pr_7
    · exact pr_11
    · exact pr_1627
    · exact pr_2657
    · exact pr_4423
    · exact pr_41201
    · exact pr_96557
    · exact pr_7240687
    · exact pr_107590001
  · decide!
  · intro q hq
    fin_cases hq
    · decide!
    · decide!
    · decide!
    · decide!
    · decide!
    · decide!
    · decide!
    · decide!
    · decide!
    · decide!

theorem pr_205115282021455665897114700593932402728804164701536103180137503955397371 : Nat.Prime 205115282021455665897114700593932402728804164701536103180137503955397371 := by
  apply pratt_step 205115282021455665897114700593932402728804164701536103180137503955397371 10 [(2, 1), (3, 1), (5, 1), (29, 2), (31, 1), (7723, 1), (132896956044521568488119, 1), (255515944373312847190720520512484175977, 1)]
  · omega
  · decide!
  · decide!
  · intro q hq
    fin_cases hq
    · exact pr_2
    · exact pr_3
    · exact pr_5
    · exact pr_29
    · exact pr_31
    · exact pr_7723
    · exact pr_132896956044521568488119
    · exact pr_255515944373312847190720520512484175977
  · decide!
  · intro q hq
    fin_cases hq
    · decide!
    · decide!
    · decide!
    · decide!
    · decide!
    · decide!
    · decide!
    · decide!

theorem pr_115792089237316195423570985008687907852837564279074904382605163141518161494337 : Nat.Prime 115792089237316195423570985008687907852837564279074904382605163141518161494337 := by
  apply pratt_step 115792089237316195423570985008687907852837564279074904382605163141518161494337 7 [(2, 6), (3, 1), (149, 1), (631, 1), (107361793816595537, 1), (174723607534414371449, 1), (341948486974166000522343609283189, 1)]
  · omega
  · decide!
  · decide!
  · intro q hq
    fin_cases hq
    · exact pr_2
    · exact pr_3
    · exact pr_149
    · exact pr_631
    · exact pr_107361793816595537
    · exact pr_174723607534414371449
    · exact pr_341948486974166000522343609283189
  · decide!
  · intro q hq
    fin_cases hq
    · decide!
    · decide!
    · decide!
    · decide!
    · decide!
    · decide!
    · decide!

theorem pr_115792089237316195423570985008687907853269984665640564039457584007908834671663 : Nat.Prime 115792089237316195423570985008687907853269984665640564039457584007908834671663 := by
  apply pratt_step 115792089237316195423570985008687907853269984665640564039457584007908834671663 3 [(2, 1), (3, 1), (7, 1), (13441, 1), (205115282021455665897114700593932402728804164701536103180137503955397371, 1)]
  · omega
  · decide!
  · decide!
  · intro q hq
    fin_cases hq
    · exact pr_2
    · exact pr_3
    · exact pr_7
    · exact pr_13441
    · exact pr_205115282021455665897114700593932402728804164701536103180137503955397371
  · decide!
  · intro q hq
    fin_cases hq
    · decide!
    · decide!
    · decide!
    · decide!
    · decide!

theorem pF_prime : Nat.Prime pF :=
  pr_115792089237316195423570985008687907853269984665640564039457584007908834671663

theorem nN_prime : Nat.Prime nN :=
  pr_115792089237316195423570985008687907852837564279074904382605163141518161494337

instance : Fact (Nat.Prime pF) := ⟨pF_prime⟩

instance : Fact (Nat.Prime nN) := ⟨nN_prime⟩

abbrev Fp := ZMod pF

abbrev Fn := ZMod nN

theorem pF_pos : 0 < pF := by norm_num [pF]

theorem castF_fadd (a b : Nat) : ((fadd a b : Nat) : Fp) = (a : Fp) + (b : Fp) := by
  simp [fadd, ZMod.natCast_mod, Nat.cast_add]

theorem castF_fmul (a b : Nat) : ((fmul a b : Nat) : Fp) = (a : Fp) * (b : Fp) := by
  simp [fmul, ZMod.natCast_mod, Nat.cast_mul]

theorem castF_fsub (a b : Nat) : ((fsub a b : Nat) : Fp) = (a : Fp) - (b : Fp) := by
  have hb : b % pF ≤ pF := le_of_lt (Nat.mod_lt _ pF_pos)
  simp only [fsub, ZMod.natCast_mod, Nat.cast_add, Nat.cast_sub hb]
  rw [ZMod.natCast_self pF]
  ring

def Wsecp : WeierstrassCurve.Jacobian Fp :=
  { a₁ := 0, a₂ := 0, a₃ := 0, a₄ := 0, a₆ := 7 }

def toJ (P : JacPt) : Fin 3 → Fp := ![(P.x : Fp), (P.y : Fp), (P.z : Fp)]

open WeierstrassCurve.Jacobian in
theorem toJ_dbl (P : JacPt) : toJ (jacDbl P) = Wsecp.dblXYZ (toJ P) := by
  funext i
  fin_cases i <;>
    simp only [toJ, jacDbl, castF_fsub, castF_fadd, castF_fmul, Nat.cast_ofNat, Nat.cast_zero,
      dblXYZ, dblX, dblY, dblZ, negDblY, dblU_eq, negY, Wsecp, Matrix.cons_val_zero,
      Matrix.cons_val_one, Matrix.head_cons, Matrix.cons_val_two, Matrix.tail_cons,
      Fin.isValue] <;>
    ring_nf

def jacCond (P Q : JacPt) : Prop :=
  (P.z = 0 ∧ Q.z = 0) ∨
    (¬P.z = 0 ∧ ¬Q.z = 0 ∧ fmul P.x (fmul Q.z Q.z) = fmul Q.x (fmul P.z P.z) ∧
      fmul P.y (fmul Q.z (fmul Q.z Q.z)) = fmul Q.y (fmul P.z (fmul P.z P.z)))

instance (P Q : JacPt) : Decidable (jacCond P Q) := by
  unfold jacCond
  infer_instance

theorem jacAdd_of_cond (P Q : JacPt) (h : jacCond P Q) : jacAdd P Q = jacDbl P := by
  have h' : (P.z = 0 ∧ Q.z = 0) ∨
      (¬P.z = 0 ∧ ¬Q.z = 0 ∧ fmul P.x (fmul Q.z Q.z) = fmul Q.x (fmul P.z P.z) ∧
        fmul P.y (fmul Q.z (fmul Q.z Q.z)) = fmul Q.y (fmul P.z (fmul P.z P.z))) := h
  unfold jacAdd
  rw [if_pos h']

open WeierstrassCurve.Jacobian in
theorem toJ_add_of_not_cond (P Q : JacPt) (h : ¬jacCond P Q) :
    toJ (jacAdd P Q) = Wsecp.addXYZ (toJ P) (toJ Q) := by
  have h' : ¬((P.z = 0 ∧ Q.z = 0) ∨
      (¬P.z = 0 ∧ ¬Q.z = 0 ∧ fmul P.x (fmul Q.z Q.z) = fmul Q.x (fmul P.z P.z) ∧
        fmul P.y (fmul Q.z (fmul Q.z Q.z)) = fmul Q.y (fmul P.z (fmul P.z P.z)))) := fun hc => h hc
  unfold jacAdd
  rw [if_neg h']
  funext i
  fin_cases i <;>
    simp only [toJ, castF_fsub, castF_fadd, castF_fmul, Nat.cast_ofNat, Nat.cast_zero,
      addXYZ, addX, addY, addZ, negAddY, negY, Wsecp, Matrix.cons_val_zero,
      Matrix.cons_val_one, Matrix.head_cons, Matrix.cons_val_two, Matrix.tail_cons,
      Fin.isValue] <;>
    ring_nf

def JacRed (P : JacPt) : Prop := P.x < pF ∧ P.y < pF ∧ P.z < pF

theorem fadd_lt (a b : Nat) : fadd a b < pF := Nat.mod_lt _ pF_pos

theorem fsub_lt (a b : Nat) : fsub a b < pF := Nat.mod_lt _ pF_pos

theorem fmul_lt (a b : Nat) : fmul a b < pF := Nat.mod_lt _ pF_pos

theorem jacDbl_red (P : JacPt) : JacRed (jacDbl P) :=
  ⟨fsub_lt _ _, fsub_lt _ _, fmul_lt _ _⟩

theorem jacAdd_red (P Q : JacPt) (hP : JacRed P) : JacRed (jacAdd P Q) := by
  unfold jacAdd
  split
  · exact jacDbl_red P
  · exact ⟨fadd_lt _ _, fsub_lt _ _, fsub_lt _ _⟩

theorem jacInf_red : JacRed jacInf := by
  refine ⟨?_, ?_, ?_⟩ <;> norm_num [jacInf, pF]

theorem castF_inj {a b : Nat} (ha : a < pF) (hb : b < pF) : (a : Fp) = (b : Fp) ↔ a = b := by
  constructor
  · intro h
    have h2 := congrArg ZMod.val h
    rwa [ZMod.val_cast_of_lt ha, ZMod.val_cast_of_lt hb] at h2
  · intro h
    rw [h]

theorem castF_zero_iff {a : Nat} (ha : a < pF) : (a : Fp) = 0 ↔ a = 0 := by
  have h0 : ((0 : Nat) : Fp) = 0 := Nat.cast_zero
  rw [← h0]
  exact castF_inj ha pF_pos

theorem toJ_x (P : JacPt) : toJ P 0 = (P.x : Fp) := rfl

theorem toJ_y (P : JacPt) : toJ P 1 = (P.y : Fp) := rfl

theorem toJ_z (P : JacPt) : toJ P 2 = (P.z : Fp) := rfl

open WeierstrassCurve.Jacobian in
theorem cond_iff_equiv (P Q : JacPt) (hP : Wsecp.Nonsingular (toJ P))
    (hQ : Wsecp.Nonsingular (toJ Q)) (hPr : JacRed P) (hQr : JacRed Q) :
    jacCond P Q ↔ toJ P ≈ toJ Q := by
  obtain ⟨hPx, hPy, hPz⟩ := hPr
  obtain ⟨hQx, hQy, hQz⟩ := hQr
  constructor
  · rintro (⟨h1, h2⟩ | ⟨h1, h2, h3, h4⟩)
    · exact equiv_of_Z_eq_zero hP hQ (by rw [toJ_z, h1, Nat.cast_zero])
        (by rw [toJ_z, h2, Nat.cast_zero])
    · have hx : (toJ P) 0 * (toJ Q) 2 ^ 2 = (toJ Q) 0 * (toJ P) 2 ^ 2 := by
        have := (castF_inj (fmul_lt _ _) (fmul_lt _ _)).mpr h3
        rw [castF_fmul, castF_fmul, castF_fmul, castF_fmul] at this
        simp only [toJ_x, toJ_z]
        rw [sq, sq]
        linear_combination this
      have hy : (toJ P) 1 * (toJ Q) 2 ^ 3 = (toJ Q) 1 * (toJ P) 2 ^ 3 := by
        have := (castF_inj (fmul_lt _ _) (fmul_lt _ _)).mpr h4
        rw [castF_fmul, castF_fmul, castF_fmul, castF_fmul, castF_fmul, castF_fmul] at this
        simp only [toJ_y, toJ_z]
        rw [pow_succ, sq]
        linear_combination this
      refine equiv_of_X_eq_of_Y_eq ?_ ?_ hx hy
      · rw [toJ_z]
        intro hc
        exact h1 ((castF_zero_iff hPz).mp hc)
      · rw [toJ_z]
        intro hc
        exact h2 ((castF_zero_iff hQz).mp hc)
  · intro h
    by_cases h1 : P.z = 0
    · left
      refine ⟨h1, ?_⟩
      have hz := (Z_eq_zero_of_equiv h).mp (by rw [toJ_z, h1, Nat.cast_zero])
      rw [toJ_z] at hz
      exact (castF_zero_iff hQz).mp hz
    · right
      have h2 : ¬Q.z = 0 := by
        intro h2
        exact h1 ((castF_zero_iff hPz).mp ((Z_eq_zero_of_equiv h).mpr
          (by rw [toJ_z, h2, Nat.cast_zero])))
      have hx := X_eq_of_equiv h
      have hy := Y_eq_of_equiv h
      refine ⟨h1, h2, ?_, ?_⟩
      · apply (castF_inj (fmul_lt _ _) (fmul_lt _ _)).mp
        rw [castF_fmul, castF_fmul, castF_fmul, castF_fmul]
        simp only [toJ_x, toJ_z] at hx
        rw [sq, sq] at hx
        linear_combination hx
      · apply (castF_inj (fmul_lt _ _) (fmul_lt _ _)).mp
        rw [castF_fmul, castF_fmul, castF_fmul, castF_fmul, castF_fmul, castF_fmul]
        simp only [toJ_y, toJ_z] at hy
        rw [pow_succ, sq] at hy
        linear_combination hy

def mkPt (P : JacPt) (h : Wsecp.Nonsingular (toJ P)) : Wsecp.Point :=
  ⟨(WeierstrassCurve.Jacobian.nonsingularLift_iff (toJ P)).mpr h⟩

theorem mkPt_point (P : JacPt) (h : Wsecp.Nonsingular (toJ P)) :
    (mkPt P h).point = (⟦toJ P⟧ : WeierstrassCurve.Jacobian.PointClass Fp) := rfl

open WeierstrassCurve.Jacobian in
theorem mkPt_eq_iff (P Q : JacPt) (hP : Wsecp.Nonsingular (toJ P))
    (hQ : Wsecp.Nonsingular (toJ Q)) :
    mkPt P hP = mkPt Q hQ ↔ (⟦toJ P⟧ : PointClass Fp) = ⟦toJ Q⟧ := by
  constructor
  · intro h
    have := congrArg WeierstrassCurve.Jacobian.Point.point h
    simpa [mkPt_point] using this
  · intro h
    apply WeierstrassCurve.Jacobian.Point.ext
    simpa [mkPt_point] using h

open WeierstrassCurve.Jacobian in
theorem jacDbl_class (P : JacPt) (hP : Wsecp.Nonsingular (toJ P)) :
    (⟦toJ (jacDbl P)⟧ : PointClass Fp) = (mkPt P hP + mkPt P hP).point := by
  rw [Point.add_point, mkPt_point, addMap_eq, add_self, toJ_dbl]

open WeierstrassCurve.Jacobian in
theorem jacDbl_ns (P : JacPt) (hP : Wsecp.Nonsingular (toJ P)) :
    Wsecp.Nonsingular (toJ (jacDbl P)) := by
  apply (nonsingularLift_iff _).mp
  show Wsecp.NonsingularLift ⟦toJ (jacDbl P)⟧
  rw [jacDbl_class P hP]
  exact (mkPt P hP + mkPt P hP).nonsingular

open WeierstrassCurve.Jacobian in
theorem jacAdd_class (P Q : JacPt) (hP : Wsecp.Nonsingular (toJ P))
    (hQ : Wsecp.Nonsingular (toJ Q)) (hPr : JacRed P) (hQr : JacRed Q) :
    (⟦toJ (jacAdd P Q)⟧ : PointClass Fp) = (mkPt P hP + mkPt Q hQ).point := by
  rw [Point.add_point, mkPt_point, mkPt_point, addMap_eq]
  by_cases hc : jacCond P Q
  · rw [jacAdd_of_cond P Q hc, add_of_equiv ((cond_iff_equiv P Q hP hQ hPr hQr).mp hc), toJ_dbl]
  · rw [toJ_add_of_not_cond P Q hc,
      add_of_not_equiv (fun he => hc ((cond_iff_equiv P Q hP hQ hPr hQr).mpr he))]

open WeierstrassCurve.Jacobian in
theorem jacAdd_ns (P Q : JacPt) (hP : Wsecp.Nonsingular (toJ P))
    (hQ : Wsecp.Nonsingular (toJ Q)) (hPr : JacRed P) (hQr : JacRed Q) :
    Wsecp.Nonsingular (toJ (jacAdd P Q)) := by
  apply (nonsingularLift_iff _).mp
  show Wsecp.NonsingularLift ⟦toJ (jacAdd P Q)⟧
  rw [jacAdd_class P Q hP hQ hPr hQr]
  exact (mkPt P hP + mkPt Q hQ).nonsingular

open WeierstrassCurve.Jacobian in
theorem jacInf_ns : Wsecp.Nonsingular (toJ jacInf) := by
  have : toJ jacInf = ![1, 1, 0] := by
    funext i
    fin_cases i <;> simp [toJ, jacInf]
  rw [this]
  exact nonsingular_zero

open WeierstrassCurve.Jacobian in
theorem mkPt_jacInf : mkPt jacInf jacInf_ns = 0 := by
  apply WeierstrassCurve.Jacobian.Point.ext
  rw [mkPt_point, Point.zero_point]
  have : toJ jacInf = ![1, 1, 0] := by
    funext i
    fin_cases i <;> simp [toJ, jacInf]
  rw [this]

open WeierstrassCurve.Jacobian in
theorem ns_of_class (P : JacPt) (Pt : Wsecp.Point)
    (h : (⟦toJ P⟧ : PointClass Fp) = Pt.point) : Wsecp.Nonsingular (toJ P) := by
  apply (nonsingularLift_iff (toJ P)).mp
  show Wsecp.NonsingularLift ⟦toJ P⟧
  rw [h]
  exact Pt.nonsingular

open WeierstrassCurve.Jacobian in
theorem mkPt_eq_of_class (P : JacPt) (Pt : Wsecp.Point) (h : Wsecp.Nonsingular (toJ P))
    (hc : (⟦toJ P⟧ : PointClass Fp) = Pt.point) : mkPt P h = Pt := by
  apply WeierstrassCurve.Jacobian.Point.ext
  rw [mkPt_point]
  exact hc

open WeierstrassCurve.Jacobian in
theorem jacAdd_class2 (P Q : JacPt) (A B : Wsecp.Point) (hPr : JacRed P) (hQr : JacRed Q)
    (hA : (⟦toJ P⟧ : PointClass Fp) = A.point) (hB : (⟦toJ Q⟧ : PointClass Fp) = B.point) :
    (⟦toJ (jacAdd P Q)⟧ : PointClass Fp) = (A + B).point := by
  have hPn := ns_of_class P A hA
  have hQn := ns_of_class Q B hB
  rw [jacAdd_class P Q hPn hQn hPr hQr, mkPt_eq_of_class P A hPn hA,
    mkPt_eq_of_class Q B hQn hB]

open WeierstrassCurve.Jacobian in
theorem jacDbl_class2 (P : JacPt) (A : Wsecp.Point)
    (hA : (⟦toJ P⟧ : PointClass Fp) = A.point) :
    (⟦toJ (jacDbl P)⟧ : PointClass Fp) = (A + A).point := by
  have hPn := ns_of_class P A hA
  rw [jacDbl_class P hPn, mkPt_eq_of_class P A hPn hA]

open WeierstrassCurve.Jacobian in
theorem jacMulAux_sem (P : JacPt) (hP : Wsecp.Nonsingular (toJ P)) (hPr : JacRed P)
    (k : Nat) (n : Nat) :
    (natIter jacMulStep n (k, jacInf, P)).1 = k / 2 ^ n ∧
    JacRed (natIter jacMulStep n (k, jacInf, P)).2.1 ∧
    JacRed (natIter jacMulStep n (k, jacInf, P)).2.2 ∧
    (⟦toJ (natIter jacMulStep n (k, jacInf, P)).2.1⟧ : PointClass Fp) =
      ((k % 2 ^ n) • mkPt P hP).point ∧
    (⟦toJ (natIter jacMulStep n (k, jacInf, P)).2.2⟧ : PointClass Fp) =
      (2 ^ n • mkPt P hP).point := by
  induction n with
  | zero =>
    refine ⟨by simp [natIter_zero], jacInf_red, hPr, ?_, ?_⟩
    · show (⟦toJ jacInf⟧ : PointClass Fp) = ((k % 1) • mkPt P hP).point
      rw [Nat.mod_one, zero_nsmul, ← mkPt_jacInf, mkPt_point]
    · show (⟦toJ P⟧ : PointClass Fp) = ((2 : Nat) ^ 0 • mkPt P hP).point
      rw [pow_zero, one_nsmul, mkPt_point]
  | succ n ih =>
    obtain ⟨hrem, hra, hrb, hca, hcb⟩ := ih
    have hmodmod : k % (2 ^ n * 2) % 2 ^ n = k % 2 ^ n :=
      Nat.mod_mod_of_dvd k (Dvd.intro 2 (by ring))
    have hkey : k % (2 ^ n * 2) = 2 ^ n * (k / 2 ^ n % 2) + k % 2 ^ n := by
      conv_lhs => rw [← Nat.div_add_mod (k % (2 ^ n * 2)) (2 ^ n)]
      rw [← Nat.div_mod_eq_mod_mul_div k (2 ^ n) 2, hmodmod]
    rw [natIter_succ]
    set st := natIter jacMulStep n (k, jacInf, P) with hst
    show st.1 / 2 = k / 2 ^ (n + 1) ∧
      JacRed (if st.1 % 2 = 1 then jacAdd st.2.1 st.2.2 else st.2.1) ∧
      JacRed (jacDbl st.2.2) ∧
      (⟦toJ (if st.1 % 2 = 1 then jacAdd st.2.1 st.2.2 else st.2.1)⟧ : PointClass Fp) =
        ((k % 2 ^ (n + 1)) • mkPt P hP).point ∧
      (⟦toJ (jacDbl st.2.2)⟧ : PointClass Fp) = (2 ^ (n + 1) • mkPt P hP).point
    have hrem' : st.1 / 2 = k / 2 ^ (n + 1) := by
      rw [hrem, Nat.div_div_eq_div_mul, pow_succ]
    have hbase' : (⟦toJ (jacDbl st.2.2)⟧ : PointClass Fp) = (2 ^ (n + 1) • mkPt P hP).point := by
      rw [jacDbl_class2 st.2.2 (2 ^ n • mkPt P hP) hcb]
      congr 1
      rw [← add_nsmul]
      congr 1
      rw [pow_succ]
      ring
    refine ⟨hrem', ?_, jacDbl_red _, ?_, hbase'⟩
    · by_cases hbit : st.1 % 2 = 1
      · rw [if_pos hbit]
        exact jacAdd_red _ _ hra
      · rw [if_neg hbit]
        exact hra
    · by_cases hbit : st.1 % 2 = 1
      · rw [if_pos hbit]
        rw [jacAdd_class2 st.2.1 st.2.2 ((k % 2 ^ n) • mkPt P hP) (2 ^ n • mkPt P hP)
          hra hrb hca hcb]
        congr 1
        rw [← add_nsmul]
        congr 1
        rw [hrem] at hbit
        rw [pow_succ, hkey, hbit]
        ring
      · rw [if_neg hbit]
        rw [hca]
        congr 2
        rw [hrem] at hbit
        have hb0 : k / 2 ^ n % 2 = 0 := by omega
        rw [pow_succ, hkey, hb0]
        ring

theorem Gpt_red : JacRed Gpt := by
  refine ⟨?_, ?_, ?_⟩ <;> decide!

theorem toJ_Gpt : toJ Gpt = ![((Gpt.x : Nat) : Fp), ((Gpt.y : Nat) : Fp), (1 : Fp)] := by
  funext i
  fin_cases i <;> simp [toJ, Gpt]

theorem two_ne_zero_Fp : (2 : Fp) ≠ 0 := by
  have h2 : ((2 : Nat) : Fp) = (2 : Fp) := by norm_cast
  intro h
  have h0 := (@castF_zero_iff 2 (by norm_num [pF])).mp (by rw [h2]; exact h)
  omega

theorem Gpt_y_ne_zero : ((Gpt.y : Nat) : Fp) ≠ 0 := by
  intro h
  have h0 := (castF_zero_iff Gpt_red.2.1).mp h
  exact absurd h0 (by decide!)

theorem Gpt_equation_nat :
    Gpt.y * Gpt.y % pF = (Gpt.x * Gpt.x * Gpt.x + 7) % pF := by decide!

open WeierstrassCurve.Jacobian in
theorem Gpt_ns : Wsecp.Nonsingular (toJ Gpt) := by
  rw [toJ_Gpt]
  rw [nonsingular_some]
  rw [WeierstrassCurve.Affine.nonsingular_iff]
  constructor
  · rw [WeierstrassCurve.Affine.equation_iff]
    have hc := congrArg (fun n : Nat => (n : Fp)) Gpt_equation_nat
    simp only [ZMod.natCast_mod, Nat.cast_mul, Nat.cast_add, Nat.cast_ofNat] at hc
    show ((Gpt.y : Nat) : Fp) ^ 2 + Wsecp.a₁ * _ * _ + Wsecp.a₃ * _ =
      ((Gpt.x : Nat) : Fp) ^ 3 + Wsecp.a₂ * _ ^ 2 + Wsecp.a₄ * _ + Wsecp.a₆
    show ((Gpt.y : Nat) : Fp) ^ 2 + 0 * _ * _ + 0 * _ =
      ((Gpt.x : Nat) : Fp) ^ 3 + 0 * _ ^ 2 + 0 * _ + 7
    ring_nf
    ring_nf at hc
    linear_combination hc
  · right
    show ((Gpt.y : Nat) : Fp) ≠ -((Gpt.y : Nat) : Fp) - Wsecp.a₁ * _ - Wsecp.a₃
    show ((Gpt.y : Nat) : Fp) ≠ -((Gpt.y : Nat) : Fp) - 0 * _ - 0
    intro heq
    have h2y : (2 : Fp) * ((Gpt.y : Nat) : Fp) = 0 := by linear_combination heq
    rcases mul_eq_zero.mp h2y with h | h
    · exact two_ne_zero_Fp h
    · exact Gpt_y_ne_zero h

def GJ : Wsecp.Point := mkPt Gpt Gpt_ns

open WeierstrassCurve.Jacobian in
theorem jacMul_sem (k : Nat) (P : JacPt) (hP : Wsecp.Nonsingular (toJ P)) (hPr : JacRed P) :
    JacRed (jacMul k P) ∧
    (⟦toJ (jacMul k P)⟧ : PointClass Fp) = ((k % 2 ^ 256) • mkPt P hP).point := by
  obtain ⟨_, hra, _, hca, _⟩ := jacMulAux_sem P hP hPr k 256
  exact ⟨hra, hca⟩

theorem nN_lt_2256 : nN < 2 ^ 256 := by decide!

theorem jacMul_nN_z : (jacMul nN Gpt).z = 0 := by
  set_option maxRecDepth 100000 in decide!

open WeierstrassCurve.Jacobian in
theorem class_zero_iff (J : JacPt) (hr : JacRed J) (hns : Wsecp.Nonsingular (toJ J))
    (Pt : Wsecp.Point) (hc : (⟦toJ J⟧ : PointClass Fp) = Pt.point) :
    J.z = 0 ↔ Pt = 0 := by
  constructor
  · intro hz
    have hequiv : toJ J ≈ ![1, 1, 0] :=
      equiv_zero_of_Z_eq_zero hns (by rw [toJ_z, hz, Nat.cast_zero])
    apply WeierstrassCurve.Jacobian.Point.ext
    rw [← hc, Point.zero_point]
    exact Quotient.sound hequiv
  · intro h0
    rw [h0, Point.zero_point] at hc
    have hequiv : toJ J ≈ ![1, 1, 0] := Quotient.exact hc
    have hz := (Z_eq_zero_of_equiv hequiv).mpr rfl
    rw [toJ_z] at hz
    exact (castF_zero_iff hr.2.2).mp hz

open WeierstrassCurve.Jacobian in
theorem nN_smul_GJ : nN • GJ = 0 := by
  obtain ⟨hred, hclass⟩ := jacMul_sem nN Gpt Gpt_ns Gpt_red
  rw [Nat.mod_eq_of_lt nN_lt_2256] at hclass
  exact (class_zero_iff _ hred
    (ns_of_class _ _ hclass) _ hclass).mp jacMul_nN_z

open WeierstrassCurve.Jacobian in
theorem GJ_ne_zero : GJ ≠ 0 := by
  intro h
  have hz := (class_zero_iff Gpt Gpt_red Gpt_ns GJ (mkPt_point Gpt Gpt_ns)).mpr h
  exact absurd hz (by decide!)

theorem addOrderOf_GJ : addOrderOf GJ = nN := by
  have hdvd : addOrderOf GJ ∣ nN := addOrderOf_dvd_of_nsmul_eq_zero nN_smul_GJ
  rcases (Nat.Prime.eq_one_or_self_of_dvd nN_prime _ hdvd) with h1 | h
  · exfalso
    exact GJ_ne_zero (AddMonoid.addOrderOf_eq_one_iff.mp h1)
  · exact h

theorem smul_GJ_eq_zero_iff (a : Nat) : a • GJ = 0 ↔ (a : Fn) = 0 := by
  rw [← addOrderOf_dvd_iff_nsmul_eq_zero, addOrderOf_GJ, ZMod.natCast_zmod_eq_zero_iff_dvd]

theorem smul_GJ_congr {a b : Nat} (hab : (a : Fn) = (b : Fn)) : a • GJ = b • GJ := by
  have hmod := (ZMod.natCast_eq_natCast_iff' a b nN).mp hab
  have ha := Nat.div_add_mod a nN
  have hb := Nat.div_add_mod b nN
  calc a • GJ = (nN * (a / nN) + a % nN) • GJ := by rw [ha]
  _ = (a / nN) • (nN • GJ) + (a % nN) • GJ := by
      rw [add_nsmul, mul_nsmul]
  _ = (a % nN) • GJ := by rw [nN_smul_GJ, nsmul_zero, zero_add]
  _ = (b % nN) • GJ := by rw [hmod]
  _ = (b / nN) • (nN • GJ) + (b % nN) • GJ := by rw [nN_smul_GJ, nsmul_zero, zero_add]
  _ = (nN * (b / nN) + b % nN) • GJ := by rw [add_nsmul, mul_nsmul]
  _ = b • GJ := by rw [hb]

theorem pow_sub_two_inv (p : Nat) [Fact p.Prime] (hp : 2 < p) (a : ZMod p) :
    a ^ (p - 2) = a⁻¹ := by
  by_cases ha : a = 0
  · rw [ha, zero_pow (by omega), inv_zero]
  · have h1 : a * a ^ (p - 2) = 1 := by
      rw [← pow_succ']
      have he : p - 2 + 1 = p - 1 := by omega
      rw [he]
      exact ZMod.pow_card_sub_one_eq_one ha
    exact (inv_eq_of_mul_eq_one_right h1).symm

theorem pF_sub_two_lt : pF - 2 < 2 ^ 256 := by decide!

theorem finv_cast (a : Nat) : ((finv a : Nat) : Fp) = ((a : Fp))⁻¹ := by
  unfold finv
  rw [powMod_cast a (pF - 2) pF pF_pos pF_sub_two_lt]
  exact pow_sub_two_inv pF (by norm_num [pF]) _

theorem jacToAffine_some (J : JacPt) (hr : JacRed J) (hz : J.z ≠ 0) :
    ∃ a b, jacToAffine J = some (a, b) ∧ a < pF ∧ b < pF ∧
      (a : Fp) = (J.x : Fp) * (((J.z : Fp)) ⁻¹) ^ 2 ∧
      (b : Fp) = (J.y : Fp) * (((J.z : Fp)) ⁻¹) ^ 3 := by
  refine ⟨fmul J.x (fmul (finv J.z) (finv J.z)),
    fmul J.y (fmul (fmul (finv J.z) (finv J.z)) (finv J.z)), ?_, fmul_lt _ _, fmul_lt _ _, ?_, ?_⟩
  · unfold jacToAffine
    rw [if_neg hz]
  · rw [castF_fmul, castF_fmul, finv_cast]
    ring
  · rw [castF_fmul, castF_fmul, castF_fmul, finv_cast]
    ring

theorem jacToAffine_z_ne (J : JacPt) (p : Nat × Nat) (h : jacToAffine J = some p) :
    J.z ≠ 0 := by
  intro hz
  unfold jacToAffine at h
  rw [if_pos hz] at h
  exact Option.noConfusion h

open WeierstrassCurve.Jacobian in
theorem affineX_eq_of_cross (J K : JacPt) (hrJ : JacRed J) (hrK : JacRed K)
    (hzJ : J.z ≠ 0) (hzK : K.z ≠ 0)
    (hx : (J.x : Fp) * (K.z : Fp) ^ 2 = (K.x : Fp) * (J.z : Fp) ^ 2) :
    ∃ aJ bJ aK bK, jacToAffine J = some (aJ, bJ) ∧ jacToAffine K = some (aK, bK) ∧
      aJ = aK := by
  obtain ⟨aJ, bJ, hJ, haJ, _, hcJ, _⟩ := jacToAffine_some J hrJ hzJ
  obtain ⟨aK, bK, hK, haK, _, hcK, _⟩ := jacToAffine_some K hrK hzK
  refine ⟨aJ, bJ, aK, bK, hJ, hK, ?_⟩
  apply (castF_inj haJ haK).mp
  rw [hcJ, hcK]
  have hJz : ((J.z : Fp)) ≠ 0 := fun hc => hzJ ((castF_zero_iff hrJ.2.2).mp hc)
  have hKz : ((K.z : Fp)) ≠ 0 := fun hc => hzK ((castF_zero_iff hrK.2.2).mp hc)
  field_simp
  linear_combination hx

open WeierstrassCurve.Jacobian in
theorem affineX_eq_of_class (J K : JacPt) (hrJ : JacRed J) (hrK : JacRed K)
    (hzJ : J.z ≠ 0) (hzK : K.z ≠ 0)
    (h : (⟦toJ J⟧ : PointClass Fp) = ⟦toJ K⟧ ∨
      (⟦toJ J⟧ : PointClass Fp) = Wsecp.negMap ⟦toJ K⟧) :
    ∃ aJ bJ aK bK, jacToAffine J = some (aJ, bJ) ∧ jacToAffine K = some (aK, bK) ∧
      aJ = aK := by
  apply affineX_eq_of_cross J K hrJ hrK hzJ hzK
  rcases h with h | h
  · have hequiv : toJ J ≈ toJ K := Quotient.exact h
    have hx := X_eq_of_equiv hequiv
    rw [toJ_x, toJ_x, toJ_z, toJ_z] at hx
    exact hx
  · rw [negMap_eq] at h
    have hequiv : toJ J ≈ Wsecp.neg (toJ K) := Quotient.exact h
    have hx := X_eq_of_equiv hequiv
    have hnx : (Wsecp.neg (toJ K)) 0 = (K.x : Fp) := by
      show (![toJ K 0, Wsecp.negY (toJ K), toJ K 2]) 0 = _
      rw [Matrix.cons_val_zero, toJ_x]
    have hnz : (Wsecp.neg (toJ K)) 2 = (K.z : Fp) := by
      show (![toJ K 0, Wsecp.negY (toJ K), toJ K 2]) 2 = _
      rw [Matrix.cons_val_two, Matrix.tail_cons, Matrix.head_cons, toJ_z]
    rw [hnx, hnz, toJ_x, toJ_z] at hx
    exact hx

open WeierstrassCurve.Jacobian in
theorem emb_class (D : JacPt) (hrD : JacRed D) (a b : Nat)
    (haff : jacToAffine D = some (a, b)) :
    JacRed ⟨a, b, 1⟩ ∧ (⟦toJ (⟨a, b, 1⟩ : JacPt)⟧ : PointClass Fp) = ⟦toJ D⟧ := by
  have hz : D.z ≠ 0 := jacToAffine_z_ne D (a, b) haff
  obtain ⟨a2, b2, hsome, ha2, hb2, hca, hcb⟩ := jacToAffine_some D hrD hz
  rw [haff] at hsome
  have hab := Option.some.inj hsome
  obtain ⟨rfl, rfl⟩ : a = a2 ∧ b = b2 :=
    ⟨congrArg Prod.fst hab, congrArg Prod.snd hab⟩
  have hured : JacRed ⟨a, b, 1⟩ := ⟨ha2, hb2, by norm_num [pF]⟩
  refine ⟨hured, ?_⟩
  have hDz : ((D.z : Fp)) ≠ 0 := fun hc => hz ((castF_zero_iff hrD.2.2).mp hc)
  have hsmul : toJ D = (D.z : Fp) • toJ (⟨a, b, 1⟩ : JacPt) := by
    funext i
    fin_cases i <;>
      simp only [toJ, smul_fin3, Matrix.cons_val_zero, Matrix.cons_val_one, Matrix.head_cons,
        Matrix.cons_val_two, Matrix.tail_cons, Nat.cast_one, hca, hcb, Fin.isValue]
    · field_simp
    · field_simp
    · show (D.z : Fp) = (D.z : Fp) * 1
      rw [mul_one]
  calc (⟦toJ (⟨a, b, 1⟩ : JacPt)⟧ : PointClass Fp)
      = ⟦(D.z : Fp) • toJ (⟨a, b, 1⟩ : JacPt)⟧ := (smul_eq _ (Ne.isUnit hDz)).symm
  _ = ⟦toJ D⟧ := by rw [← hsmul]

theorem nN_pos : 0 < nN := by norm_num [nN]

theorem nN_sub_two_lt : nN - 2 < 2 ^ 256 := by decide!

theorem powModN_cast (a : Nat) : ((powMod a (nN - 2) nN : Nat) : Fn) = ((a : Fn))⁻¹ := by
  rw [powMod_cast a (nN - 2) nN nN_pos nN_sub_two_lt]
  exact pow_sub_two_inv nN (by norm_num [nN]) _

theorem castN_zero_iff {a : Nat} (ha : a < nN) : (a : Fn) = 0 ↔ a = 0 := by
  constructor
  · intro h
    have h2 := congrArg ZMod.val h
    rwa [ZMod.val_cast_of_lt ha, ZMod.val_zero] at h2
  · intro h
    rw [h, Nat.cast_zero]

theorem ecdsa_sign_spec (h d k : Nat) (sig : Signature)
    (hsig : ecdsa_sign h d k = some sig) :
    ∃ R i, jacToAffine (jacMul k Gpt) = some R ∧
      sig.r = R.1 % nN ∧
      sig.s = lowS (powMod k (nN - 2) nN * ((h + R.1 % nN * d) % nN) % nN) ∧
      sig.recovery_id = some i ∧
      R.1 % nN ≠ 0 ∧
      powMod k (nN - 2) nN * ((h + R.1 % nN * d) % nN) % nN ≠ 0 := by
  unfold ecdsa_sign at hsig
  cases hR : jacToAffine (jacMul k Gpt) with
  | none => rw [hR] at hsig; exact Option.noConfusion hsig
  | some R =>
    rw [hR] at hsig
    dsimp only at hsig
    by_cases h1 : R.1 % nN = 0
    · rw [if_pos h1] at hsig
      exact Option.noConfusion hsig
    · rw [if_neg h1] at hsig
      by_cases h2 : powMod k (nN - 2) nN * ((h + R.1 % nN * d) % nN) % nN = 0
      · rw [if_pos h2] at hsig
        exact Option.noConfusion hsig
      · rw [if_neg h2] at hsig
        cases hrec : findRecid h (R.1 % nN)
            (lowS (powMod k (nN - 2) nN * ((h + R.1 % nN * d) % nN) % nN))
            (derive_public_key d) with
        | none =>
          rw [hrec] at hsig
          exact Option.noConfusion hsig
        | some i =>
          rw [hrec] at hsig
          have hs := Option.some.inj hsig
          exact ⟨R, i, rfl, by rw [← hs], by rw [← hs], by rw [← hs], h1, h2⟩

theorem ecdsa_verify_eq (h : Nat) (sig : Signature) (P : Nat × Nat)
    (hcond : ¬(sig.r = 0 ∨ sig.s = 0 ∨ nN ≤ sig.r ∨ nN ≤ sig.s)) :
    ecdsa_verify h sig P =
      match jacToAffine (jacAdd (jacMul (h * powMod sig.s (nN - 2) nN % nN) Gpt)
        (jacMul (sig.r * powMod sig.s (nN - 2) nN % nN) ⟨P.1, P.2, 1⟩)) with
      | none => false
      | some Rp => decide (Rp.1 % nN = sig.r) := by
  unfold ecdsa_verify
  rw [if_neg hcond]

open WeierstrassCurve.Jacobian in
/-- C6: ECDSA correctness. For every valid scalar d in [1, order-1] and every
message hash h, whenever signing succeeds (for a nonce in the scalar range),
the produced signature verifies against the public key derived from d:
verify(h, sign(h, d), derive_public_key(d)) returns true.  Proved by
refining the executable Jacobian-coordinate arithmetic to the group of
nonsingular points of the secp256k1 curve over the certified prime field,
establishing that the base point has the certified prime group order, and
carrying out the ECDSA algebra in the scalar field, covering both the
canonical s and the order-minus-s branch of the low-s normalization. -/
theorem claim_C6_verify_of_sign (h d k : Nat) (sig : Signature) (P : Nat × Nat)
    (hd1 : 0 < d) (hd2 : d < nN) (hk : k < 2 ^ 256)
    (hsig : ecdsa_sign h d k = some sig)
    (hpub : derive_public_key d = some P) :
    ecdsa_verify h sig P = true := by
  obtain ⟨R, i, hR, hsr, hss, hsi, hr0, hs00⟩ := ecdsa_sign_spec h d k sig hsig
  set r := R.1 % nN with hrdef
  set s0 := powMod k (nN - 2) nN * ((h + r * d) % nN) % nN with hs0def
  set s := lowS s0 with hsdef
  -- basic bounds
  have hrlt : r < nN := Nat.mod_lt _ nN_pos
  have hs0lt : s0 < nN := Nat.mod_lt _ nN_pos
  have hslt : s < nN := by
    rw [hsdef]
    unfold lowS
    split <;> omega
  have hsne : s ≠ 0 := by
    rw [hsdef]
    unfold lowS
    split <;> omega
  -- sign-side point facts
  have hGJdef : mkPt Gpt Gpt_ns = GJ := rfl
  obtain ⟨hkred, hkclass⟩ := jacMul_sem k Gpt Gpt_ns Gpt_red
  rw [Nat.mod_eq_of_lt hk, hGJdef] at hkclass
  have hkz : (jacMul k Gpt).z ≠ 0 := jacToAffine_z_ne _ _ hR
  have hkns : Wsecp.Nonsingular (toJ (jacMul k Gpt)) := ns_of_class _ _ hkclass
  have hkGJ : k • GJ ≠ 0 := fun h0 =>
    hkz ((class_zero_iff _ hkred hkns _ hkclass).mpr h0)
  have hkn : (k : Fn) ≠ 0 := fun h0 => hkGJ ((smul_GJ_eq_zero_iff k).mpr h0)
  -- pub-side point facts
  have hdlt : d < 2 ^ 256 := lt_trans hd2 nN_lt_2256
  obtain ⟨hdred, hdclass⟩ := jacMul_sem d Gpt Gpt_ns Gpt_red
  rw [Nat.mod_eq_of_lt hdlt, hGJdef] at hdclass
  unfold derive_public_key at hpub
  obtain ⟨hPembred, hPembclass⟩ := emb_class (jacMul d Gpt) hdred P.1 P.2 hpub
  have hPembclass2 : (⟦toJ (⟨P.1, P.2, 1⟩ : JacPt)⟧ : PointClass Fp) = (d • GJ).point := by
    rw [hPembclass, hdclass]
  have hPembns : Wsecp.Nonsingular (toJ (⟨P.1, P.2, 1⟩ : JacPt)) :=
    ns_of_class _ _ hPembclass2
  -- field facts
  have hs0n : (s0 : Fn) = ((k : Fn))⁻¹ * ((h : Fn) + (r : Fn) * (d : Fn)) := by
    rw [hs0def, ZMod.natCast_mod, Nat.cast_mul, ZMod.natCast_mod, Nat.cast_add, Nat.cast_mul,
      powModN_cast]
  have hs0nz : (s0 : Fn) ≠ 0 := fun h0 => hs00 ((castN_zero_iff hs0lt).mp h0)
  have hmnz : (h : Fn) + (r : Fn) * (d : Fn) ≠ 0 := by
    intro h0
    apply hs0nz
    rw [hs0n, h0, mul_zero]
  have hsnz : (s : Fn) ≠ 0 := fun h0 => hsne ((castN_zero_iff hslt).mp h0)
  have hscase : (s : Fn) = (s0 : Fn) ∨ (s : Fn) = -((s0 : Fn)) := by
    rw [hsdef]
    unfold lowS
    split
    · left
      rfl
    · right
      rw [Nat.cast_sub (le_of_lt hs0lt), ZMod.natCast_self]
      ring
  -- verification scalars
  set w := powMod s (nN - 2) nN with hwdef
  set u1 := h * w % nN with hu1def
  set u2 := r * w % nN with hu2def
  have hu1lt : u1 < 2 ^ 256 := lt_trans (Nat.mod_lt _ nN_pos) nN_lt_2256
  have hu2lt : u2 < 2 ^ 256 := lt_trans (Nat.mod_lt _ nN_pos) nN_lt_2256
  have hwn : (w : Fn) = ((s : Fn))⁻¹ := powModN_cast s
  have hu1n : (u1 : Fn) = (h : Fn) * ((s : Fn))⁻¹ := by
    rw [hu1def, ZMod.natCast_mod, Nat.cast_mul, hwn]
  have hu2n : (u2 : Fn) = (r : Fn) * ((s : Fn))⁻¹ := by
    rw [hu2def, ZMod.natCast_mod, Nat.cast_mul, hwn]
  -- the verification sum as a multiple of GJ
  obtain ⟨hu1red, hu1class⟩ := jacMul_sem u1 Gpt Gpt_ns Gpt_red
  rw [Nat.mod_eq_of_lt hu1lt, hGJdef] at hu1class
  obtain ⟨hu2red, hu2class⟩ := jacMul_sem u2 (⟨P.1, P.2, 1⟩ : JacPt) hPembns hPembred
  rw [Nat.mod_eq_of_lt hu2lt] at hu2class
  have hmk : mkPt (⟨P.1, P.2, 1⟩ : JacPt) hPembns = d • GJ :=
    mkPt_eq_of_class _ _ hPembns hPembclass2
  rw [hmk] at hu2class
  have hsum : (⟦toJ (jacAdd (jacMul u1 Gpt) (jacMul u2 (⟨P.1, P.2, 1⟩ : JacPt)))⟧ :
      PointClass Fp) = ((u1 + u2 * d) • GJ).point := by
    rw [jacAdd_class2 _ _ (u1 • GJ) (u2 • (d • GJ)) hu1red hu2red
      hu1class hu2class]
    congr 1
    show u1 • GJ + u2 • (d • GJ) = (u1 + u2 * d) • GJ
    rw [← mul_nsmul' GJ u2 d, add_nsmul]
  have hsumred : JacRed (jacAdd (jacMul u1 Gpt) (jacMul u2 (⟨P.1, P.2, 1⟩ : JacPt))) :=
    jacAdd_red _ _ hu1red
  have hsumns := ns_of_class _ _ hsum
  -- scalar congruence
  have htn : ((u1 + u2 * d : Nat) : Fn) = ((s : Fn))⁻¹ * ((h : Fn) + (r : Fn) * (d : Fn)) := by
    push_cast
    rw [hu1n, hu2n]
    ring
  rcases hscase with hpos | hneg
  -- positive branch: the sum is k•GJ
  · have hteq : ((u1 + u2 * d : Nat) : Fn) = (k : Fn) := by
      rw [htn, hpos, hs0n]
      field_simp
    have hsmul : (u1 + u2 * d) • GJ = k • GJ := smul_GJ_congr hteq
    rw [hsmul] at hsum
    have hsumz : (jacAdd (jacMul u1 Gpt) (jacMul u2 (⟨P.1, P.2, 1⟩ : JacPt))).z ≠ 0 := by
      intro hz
      exact hkGJ ((class_zero_iff _ hsumred hsumns _ hsum).mp hz)
    obtain ⟨aJ, bJ, aK, bK, haffJ, haffK, haJK⟩ :=
      affineX_eq_of_class _ (jacMul k Gpt) hsumred hkred hsumz hkz
        (Or.inl (by rw [hsum, ← hkclass]))
    rw [hR] at haffK
    have hRa : R.1 = aK := by
      have := Option.some.inj haffK
      rw [this]
    have hcond : ¬(sig.r = 0 ∨ sig.s = 0 ∨ nN ≤ sig.r ∨ nN ≤ sig.s) := by
      rw [hsr, hss]
      push_neg
      exact ⟨hr0, hsne, hrlt, hslt⟩
    rw [ecdsa_verify_eq h sig P hcond, hsr, hss, ← hwdef, ← hu1def, ← hu2def, haffJ]
    dsimp only
    rw [haJK, ← hRa]
    exact decide_eq_true rfl
  -- negative branch: the sum is −(k•GJ)
  · have hs0inv : ((s0 : Fn))⁻¹ = (k : Fn) * (((h : Fn) + (r : Fn) * (d : Fn)))⁻¹ := by
      rw [hs0n, mul_inv, inv_inv]
    have hgoal : ((s : Fn))⁻¹ * ((h : Fn) + (r : Fn) * (d : Fn)) = -((k : Fn)) := by
      rw [hneg, inv_neg, hs0inv, neg_mul, mul_assoc, inv_mul_cancel₀ hmnz, mul_one]
    have hcast : ((nN - k % nN : Nat) : Fn) = -((k : Fn)) := by
      rw [Nat.cast_sub (le_of_lt (Nat.mod_lt _ nN_pos)), ZMod.natCast_self, ZMod.natCast_mod]
      ring
    have hteq : ((u1 + u2 * d : Nat) : Fn) = ((nN - k % nN : Nat) : Fn) := by
      rw [htn, hgoal, hcast]
    have hsmul : (u1 + u2 * d) • GJ = (nN - k % nN) • GJ := smul_GJ_congr hteq
    have hnegk : (nN - k % nN) • GJ = -(k • GJ) := by
      apply eq_neg_of_add_eq_zero_left
      have hcongr : k • GJ = (k % nN) • GJ := smul_GJ_congr (ZMod.natCast_mod k nN).symm
      rw [hcongr, ← add_nsmul]
      have : nN - k % nN + k % nN = nN := by
        have := Nat.mod_lt k nN_pos
        omega
      rw [this]
      exact nN_smul_GJ
    rw [hsmul, hnegk] at hsum
    have hsum2 : (⟦toJ (jacAdd (jacMul u1 Gpt) (jacMul u2 (⟨P.1, P.2, 1⟩ : JacPt)))⟧ :
        PointClass Fp) = Wsecp.negMap ⟦toJ (jacMul k Gpt)⟧ := by
      rw [hsum, Point.neg_point]
      congr 1
      rw [hkclass]
    have hsumz : (jacAdd (jacMul u1 Gpt) (jacMul u2 (⟨P.1, P.2, 1⟩ : JacPt))).z ≠ 0 := by
      intro hz
      have := (class_zero_iff _ hsumred hsumns _ hsum).mp hz
      rw [neg_eq_zero] at this
      exact hkGJ this
    obtain ⟨aJ, bJ, aK, bK, haffJ, haffK, haJK⟩ :=
      affineX_eq_of_class _ (jacMul k Gpt) hsumred hkred hsumz hkz (Or.inr hsum2)
    rw [hR] at haffK
    have hRa : R.1 = aK := by
      have := Option.some.inj haffK
      rw [this]
    have hcond : ¬(sig.r = 0 ∨ sig.s = 0 ∨ nN ≤ sig.r ∨ nN ≤ sig.s) := by
      rw [hsr, hss]
      push_neg
      exact ⟨hr0, hsne, hrlt, hslt⟩
    rw [ecdsa_verify_eq h sig P hcond, hsr, hss, ← hwdef, ← hu1def, ← hu2def, haffJ]
    dsimp only
    rw [haJK, ← hRa]
    exact decide_eq_true rfl


set_option maxRecDepth 200000 in
/-- C6 witness: a concrete signing of hash 1 by scalar 1 with nonce 1, whose
signature verifies against the derived public key. -/
theorem claim_C6_verify_of_sign_witness :
    ecdsa_verify 1
      ⟨0x79be667ef9dcbbac55a06295ce870b07029bfcdb2dce28d959f2815b16f81798,
       0x79be667ef9dcbbac55a06295ce870b07029bfcdb2dce28d959f2815b16f81799, some 0⟩
      (0x79be667ef9dcbbac55a06295ce870b07029bfcdb2dce28d959f2815b16f81798,
       0x483ada7726a3c4655da4fbfc0e1108a8fd17b448a68554199c47d08ffb10d4b8) = true :=
  claim_C6_verify_of_sign 1 1 1
    ⟨0x79be667ef9dcbbac55a06295ce870b07029bfcdb2dce28d959f2815b16f81798,
     0x79be667ef9dcbbac55a06295ce870b07029bfcdb2dce28d959f2815b16f81799, some 0⟩
    (0x79be667ef9dcbbac55a06295ce870b07029bfcdb2dce28d959f2815b16f81798,
     0x483ada7726a3c4655da4fbfc0e1108a8fd17b448a68554199c47d08ffb10d4b8)
    (by decide) (by decide!) (by decide!) (by decide!) (by decide!)
